import Mathlib

/-!
# Knowledge Cache & Indexing Engine — verification development

Shallow embedding of the knowledge-cache engine of the `community_intern`
repository (modules `knowledge_cache/models.py`, `knowledge_cache/utils.py`,
`knowledge_cache/io.py`, `knowledge_cache/providers/file_folder.py`,
`knowledge_cache/providers/url_links.py`, `knowledge_cache/indexer.py`).

Modelling conventions:
* Python dicts are association lists `List (String × α)` (insertion order
  preserved, keys unique in every reachable state).
* RFC3339 timestamp strings are modelled by the inductive `Rfc3339`:
  `stamp t` stands for the rendering of the instant `t` (seconds, `Nat`) and
  `other s` for any string that `parse_rfc3339` rejects.  `format_rfc3339`
  always produces a `stamp`, and `parse_rfc3339` succeeds exactly on stamps,
  mirroring that `datetime.fromisoformat` inverts `isoformat`.
* The SHA-256 digest of `hash_text` is modelled as an injective function of
  the normalised text (`"sha256:" ++ normalized`); hash collisions are not
  modelled.
* Python `str.strip()` / `str.rstrip()` are `pyStrip` / `pyRstrip`
  (whitespace trimming at the ends, over the character list).
* Exceptions are `Option`/`Except` results; in-place mutation is explicit
  state passing.
-/

namespace KnowledgeCache

/-- Model of RFC3339 timestamp strings: `stamp t` is `format_rfc3339` applied
to instant `t`; `other s` is a string `parse_rfc3339` raises on. -/
inductive Rfc3339 where
  | stamp (t : Nat)
  | other (s : String)
deriving DecidableEq, Repr

/-- `utils.format_rfc3339`: renders an instant (always parsable). -/
def formatRfc3339 (t : Nat) : Rfc3339 := .stamp t

/-- `utils.parse_rfc3339`: succeeds exactly on well-formed stamps (the
Python version raises on anything `datetime.fromisoformat` rejects). -/
def parseRfc3339 : Rfc3339 → Option Nat
  | .stamp t => some t
  | .other _ => none

/-- Python `str.strip()` at the character-list level: drop whitespace at
both ends. -/
def stripL (l : List Char) : List Char :=
  ((l.dropWhile Char.isWhitespace).reverse.dropWhile Char.isWhitespace).reverse

/-- Python `str.strip()`. -/
def pyStrip (s : String) : String := ⟨stripL s.data⟩

/-- Python `str.rstrip()` at the character-list level. -/
def rstripL (l : List Char) : List Char :=
  (l.reverse.dropWhile Char.isWhitespace).reverse

/-- Python `str.rstrip()`. -/
def pyRstrip (s : String) : String := ⟨rstripL s.data⟩

/-- `text.replace("\r\n", "\n").replace("\r", "\n")` as one
left-to-right pass (the two sequential replaces are equivalent to it). -/
def normEol : List Char → List Char
  | [] => []
  | '\r' :: '\n' :: t => '\n' :: normEol t
  | '\r' :: t => '\n' :: normEol t
  | c :: t => c :: normEol t

/-- Python `s.split("\n")` over characters (`"".split("\n") == [""]`). -/
def splitLines : List Char → List (List Char)
  | [] => [[]]
  | '\n' :: t => [] :: splitLines t
  | c :: t =>
    match splitLines t with
    | [] => [[c]]
    | l :: ls => (c :: l) :: ls

/-- `"\n".join(lines)` over characters. -/
def joinLines : List (List Char) → List Char
  | [] => []
  | [l] => l
  | l :: ls => l ++ '\n' :: joinLines ls

/-- `utils.normalize_text`: canonicalize line endings, right-strip every
line, drop leading and trailing blank lines. -/
def normalizeText (text : String) : String :=
  let lines := (splitLines (normEol text.data)).map rstripL
  let lines := lines.dropWhile (· = [])
  let lines := (lines.reverse.dropWhile (· = [])).reverse
  ⟨joinLines lines⟩

/-- `utils.hash_text`: SHA-256 of the normalised text.  The digest is
modelled as an injective encoding of the normalised text. -/
def hashText (text : String) : String :=
  "sha256:" ++ normalizeText text

/-- `models.SchemaVersion` -/
def SchemaVersion : Int := 1

/-- `models.FileMetadata` -/
structure FileMetadata where
  rel_path : String
  size_bytes : Int
  mtime_ns : Int
deriving DecidableEq, Repr

/-- `models.UrlMetadata`.  `fetch_status` is a plain string: the Python
`Literal` annotation is not enforced at runtime. -/
structure UrlMetadata where
  url : String
  last_fetched_at : Rfc3339
  etag : Option String
  last_modified : Option String
  fetch_status : String
  next_check_at : Rfc3339
deriving DecidableEq, Repr

/-- `models.CacheRecord`.  `source_type` is a plain string for the same
reason as `fetch_status`. -/
structure CacheRecord where
  source_type : String
  content_hash : String
  summary_text : String
  last_indexed_at : Rfc3339
  summary_pending : Bool := false
  file : Option FileMetadata := none
  url : Option UrlMetadata := none
deriving DecidableEq, Repr

/-- `models.CacheState`; `sources` is the insertion-ordered dict. -/
structure CacheState where
  schema_version : Int
  generated_at : Rfc3339
  sources : List (String × CacheRecord)
deriving DecidableEq, Repr

/-- Dict lookup (`d.get(k)`), first occurrence. -/
def lookupA {α : Type} : List (String × α) → String → Option α
  | [], _ => none
  | (k', v) :: t, k => if k' = k then some v else lookupA t k

/-- Dict assignment (`d[k] = v`): replace in place, append when absent. -/
def setA {α : Type} : List (String × α) → String → α → List (String × α)
  | [], k, v => [(k, v)]
  | (k', v') :: t, k, v => if k' = k then (k, v) :: t else (k', v') :: setA t k v

/-- JSON values as found in the cache file.  Timestamp-carrying string
leaves use the dedicated `ts` constructor because the embedding models
timestamp strings by `Rfc3339`; both are opaque to `io.py`.  Arrays never
occur in the cache schema and are omitted. -/
inductive Json where
  | null
  | bool (b : Bool)
  | num (n : Int)
  | str (s : String)
  | ts (t : Rfc3339)
  | obj (kvs : List (String × Json))

/-- Python truthiness of a JSON value (`if file_meta:` …). -/
def truthy : Json → Bool
  | .null => false
  | .bool b => b
  | .num n => n ≠ 0
  | .str s => s ≠ ""
  | .ts t => match t with
    | .stamp _ => true
    | .other s => s ≠ ""
  | .obj kvs => !kvs.isEmpty

/-- `int(x)` on a decoded JSON value.  Numeric strings (which Python's
`int` would also accept) do not occur in cache files and are not
modelled; any other value makes Python raise. -/
def jsonToInt : Json → Option Int
  | .num n => some n
  | .bool b => some (if b then 1 else 0)
  | _ => none

/-- Read a string-typed field.  On a non-string leaf the Python decoder
would store an ill-typed value; the model treats that as a decode
failure (such values never occur in files written by the engine). -/
def jsonToStr : Json → Option String
  | .str s => some s
  | _ => none

/-- Read a timestamp-string field (same ill-typed caveat as `jsonToStr`). -/
def jsonToTs : Json → Option Rfc3339
  | .ts t => some t
  | .str s => some (.other s)
  | _ => none

/-- Read an optional string field: `url_meta.get(k)` yields `None` both
for a missing key and for JSON `null`. -/
def jsonToOptStr : Option Json → Option (Option String)
  | none => some none
  | some .null => some none
  | some (.str s) => some (some s)
  | some _ => none

/-- `io._encode_record` -/
def encodeRecord (record : CacheRecord) : Json :=
  .obj
    ([("source_type", .str record.source_type),
      ("content_hash", .str record.content_hash),
      ("summary_text", .str record.summary_text),
      ("last_indexed_at", .ts record.last_indexed_at),
      ("summary_pending", .bool record.summary_pending)]
      ++ (match record.file with
          | none => []
          | some f =>
            [("file", .obj [("rel_path", .str f.rel_path),
                            ("size_bytes", .num f.size_bytes),
                            ("mtime_ns", .num f.mtime_ns)])])
      ++ (match record.url with
          | none => []
          | some u =>
            [("url", .obj [("url", .str u.url),
                           ("last_fetched_at", .ts u.last_fetched_at),
                           ("etag", match u.etag with | none => .null | some e => .str e),
                           ("last_modified", match u.last_modified with | none => .null | some m => .str m),
                           ("fetch_status", .str u.fetch_status),
                           ("next_check_at", .ts u.next_check_at)])]))

/-- `io._decode_record` helper: build `FileMetadata` from a truthy
`file` payload. -/
def decodeFileMeta (j : Json) : Option FileMetadata :=
  match j with
  | .obj kvs => do
    let rp ← lookupA kvs "rel_path"
    let rp ← jsonToStr rp
    let sb ← lookupA kvs "size_bytes"
    let sb ← jsonToInt sb
    let mt ← lookupA kvs "mtime_ns"
    let mt ← jsonToInt mt
    some ⟨rp, sb, mt⟩
  | _ => none

/-- `io._decode_record` helper: build `UrlMetadata` from a truthy `url`
payload. -/
def decodeUrlMeta (j : Json) : Option UrlMetadata :=
  match j with
  | .obj kvs => do
    let u ← lookupA kvs "url"
    let u ← jsonToStr u
    let lf ← lookupA kvs "last_fetched_at"
    let lf ← jsonToTs lf
    let etag ← jsonToOptStr (lookupA kvs "etag")
    let lm ← jsonToOptStr (lookupA kvs "last_modified")
    let fs ← lookupA kvs "fetch_status"
    let fs ← jsonToStr fs
    let nc ← lookupA kvs "next_check_at"
    let nc ← jsonToTs nc
    some ⟨u, lf, etag, lm, fs, nc⟩
  | _ => none

/-- `io._decode_record`; `none` models a raised exception. -/
def decodeRecord (j : Json) : Option CacheRecord :=
  match j with
  | .obj kvs => do
    let fileValue ←
      match lookupA kvs "file" with
      | none => some none
      | some fj => if truthy fj then (decodeFileMeta fj).map some else some none
    let urlValue ←
      match lookupA kvs "url" with
      | none => some none
      | some uj => if truthy uj then (decodeUrlMeta uj).map some else some none
    let st ← lookupA kvs "source_type"
    let st ← jsonToStr st
    let ch ← match lookupA kvs "content_hash" with
      | none => some ""
      | some v => jsonToStr v
    let sm ← match lookupA kvs "summary_text" with
      | none => some ""
      | some v => jsonToStr v
    let li ← match lookupA kvs "last_indexed_at" with
      | none => some (Rfc3339.other "")
      | some v => jsonToTs v
    let sp :=
      match lookupA kvs "summary_pending" with
      | none => false
      | some v => truthy v
    some ⟨st, ch, sm, li, sp, fileValue, urlValue⟩
  | _ => none

/-- `io.encode_cache` -/
def encodeCache (cache : CacheState) : Json :=
  .obj [("schema_version", .num cache.schema_version),
        ("generated_at", .ts cache.generated_at),
        ("sources", .obj (cache.sources.map (fun p => (p.1, encodeRecord p.2))))]

/-- Decode every record of the `sources` payload, failing if any record
fails (the Python loop propagates the exception). -/
def decodeSources : List (String × Json) → Option (List (String × CacheRecord))
  | [] => some []
  | (sid, rp) :: rest => do
    let r ← decodeRecord rp
    let rest' ← decodeSources rest
    some ((sid, r) :: rest')

/-- `io.decode_cache`; `now` feeds the `generated_at` default.  `none`
models a raised exception. -/
def decodeCache (j : Json) (now : Nat) : Option CacheState :=
  match j with
  | .obj kvs => do
    let srcsJson ←
      match lookupA kvs "sources" with
      | none => some []
      | some (.obj s) => some s
      | some _ => none
    let sources ← decodeSources srcsJson
    let sv ← match lookupA kvs "schema_version" with
      | none => some SchemaVersion
      | some v => jsonToInt v
    let ga ← match lookupA kvs "generated_at" with
      | none => some (formatRfc3339 now)
      | some v => jsonToTs v
    some ⟨sv, ga, sources⟩
  | _ => none

/-- The empty state `read_cache_file` falls back to. -/
def emptyState (now : Nat) : CacheState :=
  ⟨SchemaVersion, formatRfc3339 now, []⟩

/-- What the cache file on disk may hold. -/
inductive CacheFile where
  | missing
  | unreadableJson (raw : String)
  | jsonContent (j : Json)

/-- `io.read_cache_file` -/
def readCacheFile (f : CacheFile) (now : Nat) : CacheState :=
  match f with
  | .missing => emptyState now
  | .unreadableJson _ => emptyState now
  | .jsonContent j =>
    match decodeCache j now with
    | none => emptyState now
    | some cache =>
      if cache.schema_version ≠ SchemaVersion then emptyState now else cache

/-- Stable insertion used by `sortByKey`: a new element goes after all
elements whose key is `≤` its key. -/
def insertByKey {β : Type} (x : String × β) : List (String × β) → List (String × β)
  | [] => [x]
  | y :: t => if y.1 ≤ x.1 then y :: insertByKey x t else x :: y :: t

/-- Python's stable `sorted(group, key=lambda item: item[0])`. -/
def sortByKey {β : Type} (l : List (String × β)) : List (String × β) :=
  l.foldl (fun acc x => insertByKey x acc) []

/-- The per-type group built by the loop body of `io.build_index_entries`:
records of the given source type whose stripped summary is non-empty,
paired with that stripped summary. -/
def indexGroup (cache : CacheState) (ty : String) : List (String × String) :=
  cache.sources.filterMap (fun p =>
    if p.2.source_type = ty ∧ pyStrip p.2.summary_text ≠ ""
    then some (p.1, pyStrip p.2.summary_text) else none)

/-- `io.build_index_entries` -/
def buildIndexEntries (cache : CacheState) (source_types : List String) (pfx : String) : List String :=
  (source_types.map (fun ty =>
    (sortByKey (indexGroup cache ty)).map (fun p =>
      pyStrip (pyStrip (pfx ++ p.1) ++ "\n" ++ p.2)))).flatten

/-- `io.write_index_file`: the text content written to the index file. -/
def writeIndexFile (entries : List String) : String :=
  String.intercalate "\n\n" (entries.filter (fun e => pyStrip e ≠ ""))

/-- `Indexer._persist`'s index rebuild: the index file content for a
cache state. -/
def renderIndex (cache : CacheState) (source_types : List String) (pfx : String) : String :=
  writeIndexFile (buildIndexEntries cache source_types pfx)

/-- The index-file content exactly as claim C9 words it: one block
`"{prefix}{source_id}\n{summary}"` per record with non-empty stripped
summary, grouped by source type in the declared order, sorted by
source id within each group, joined by blank lines. -/
def claimIndexRender (cache : CacheState) (source_types : List String) (pfx : String) : String :=
  String.intercalate "\n\n" ((source_types.map (fun ty =>
    (sortByKey (indexGroup cache ty)).map (fun p =>
      pfx ++ p.1 ++ "\n" ++ p.2))).flatten)

/-- The index-file content as claim C9 must be amended: the identifier
line is `strip(prefix + source_id)`, and when that strips to the empty
string the block degenerates to the stripped summary alone. -/
def amendedIndexRender (cache : CacheState) (source_types : List String) (pfx : String) : String :=
  String.intercalate "\n\n" ((source_types.map (fun ty =>
    (sortByKey (indexGroup cache ty)).map (fun p =>
      if pyStrip (pfx ++ p.1) = "" then p.2
      else pyStrip (pfx ++ p.1) ++ "\n" ++ p.2))).flatten)

/-- Observable state of one tracked file: the `stat` outcome
(`st_size`, `st_mtime_ns`; `none` = `OSError`) and the `read_text`
outcome (`none` = `UnicodeDecodeError`/`OSError`). -/
structure FileInfo where
  stat : Option (Int × Int)
  content : Option String
deriving DecidableEq, Repr

/-- Outcome of `UrlLinksProvider._conditional_request`: a response
status with response `ETag`/`Last-Modified` headers, or the exception
classes `_refresh_one` distinguishes. -/
inductive CondReply where
  | reply (status : Int) (etag : Option String) (last_modified : Option String)
  | timeout
  | netError
  | unexpected
deriving DecidableEq, Repr

/-- The engine configuration the claims depend on.  `index_pfx` is the
indexer's `index_prefix`; `source_type_order` its provider-declared
order; the two intervals are `url_refresh_min_interval_hours` and
`runtime_refresh_tick_seconds`, both expressed in seconds. -/
structure Config where
  index_pfx : String
  source_type_order : List String
  url_refresh_min_interval : Nat
  runtime_refresh_tick : Nat
deriving Repr

/-- The deterministic environment one tick observes.
* `files` is the file tree `FileFolderProvider.discover` walks (hidden
  files already excluded): keys are unique because Python collects them
  into a dict.
* `linksLines` is the URL provider's links file (`none` = missing or
  unreadable).
* `cond` answers conditional requests, `fetchText` is
  `_fetch_url_text` (via `WebFetcher.fetch` with `force_refresh`; `""`
  = failure), `cachedText` is the on-disk content cache behind
  `WebFetcher.get_cached_content`.
* `enrich` is `ai_client.invoke_llm` keyed by the user content
  (`none` = raised exception; `some s` = `result.text`). -/
structure Env where
  files : List (String × FileInfo)
  linksLines : Option (List String)
  cond : String → Option String → Option String → CondReply
  fetchText : String → String
  cachedText : String → Option String
  enrich : String → Option String

/-- The keys of `Env.files` are unique (Python dict). -/
def Env.wf (env : Env) : Prop := (env.files.map Prod.fst).Nodup

/-- `FileFolderProvider.discover`: every visible file, typed `"file"`. -/
def fileDiscover (env : Env) : List (String × String) :=
  env.files.map (fun p => (p.1, "file"))

/-- `FileFolderProvider.init_record` -/
def fileInit (env : Env) (source_id : String) (now : Nat) : Option CacheRecord :=
  match lookupA env.files source_id with
  | none => none
  | some info =>
    match info.stat with
    | none => none
    | some (sz, mt) =>
      match info.content with
      | none => none
      | some text =>
        some { source_type := "file"
               content_hash := hashText text
               summary_text := ""
               last_indexed_at := formatRfc3339 now
               summary_pending := true
               file := some ⟨source_id, sz, mt⟩
               url := none }

/-- The loop body of `FileFolderProvider.refresh` for one tracked file;
returns the updated record, the `changed` contribution, and whether the
file was re-read. -/
def fileRefreshOne (info : FileInfo) (rel_path : String) (record : CacheRecord) :
    CacheRecord × Bool × Bool :=
  match info.stat with
  | none => (record, false, false)
  | some (sz, mt) =>
    let file_meta := record.file.getD ⟨rel_path, sz, mt⟩
    if file_meta.size_bytes = sz ∧ file_meta.mtime_ns = mt then (record, false, false)
    else
      match info.content with
      | none => (record, false, true)
      | some text =>
        let content_hash := hashText text
        let r1 := { record with file := some ⟨rel_path, sz, mt⟩ }
        let r2 := if content_hash ≠ r1.content_hash ∨ r1.summary_pending = true
                  then { r1 with
                         content_hash := content_hash
                         summary_pending := true }
                  else r1
        (r2, true, true)

/-- `FileFolderProvider.refresh` -/
def fileRefresh (env : Env) (cache : CacheState) : CacheState × Bool :=
  env.files.foldl (fun acc p =>
    match lookupA acc.1.sources p.1 with
    | none => acc
    | some record =>
      if record.source_type ≠ "file" then acc
      else
        let step := fileRefreshOne p.2 p.1 record
        ({ acc.1 with sources := setA acc.1.sources p.1 step.1 }, acc.2 || step.2.1))
    (cache, false)

/-- `FileFolderProvider.load_text` -/
def fileLoadText (env : Env) (source_id : String) : Option String :=
  match lookupA env.files source_id with
  | none => none
  | some info => info.content

/-- Python `url.startswith("#")`. -/
def startsWithHash (s : String) : Bool :=
  match s.data with
  | '#' :: _ => true
  | _ => false

/-- The line loop of `UrlLinksProvider.discover`: strip each line, skip
blanks, `#` comments and duplicates. -/
def collectLinks (seen : List String) : List String → List String
  | [] => []
  | line :: rest =>
    let url := pyStrip line
    if url = "" ∨ startsWithHash url ∨ url ∈ seen then collectLinks seen rest
    else url :: collectLinks (url :: seen) rest

/-- `UrlLinksProvider.discover`'s URL set (also its `_urls` keys). -/
def discoverUrls (env : Env) : List String :=
  match env.linksLines with
  | none => []
  | some lines => collectLinks [] lines

/-- `UrlLinksProvider.discover`: every link, typed `"url"`. -/
def urlDiscover (env : Env) : List (String × String) :=
  (discoverUrls env).map (fun u => (u, "url"))

/-- `UrlLinksProvider.init_record` -/
def urlInit (cfg : Config) (env : Env) (source_id : String) (now : Nat) : Option CacheRecord :=
  if source_id ∈ discoverUrls env then
    let text := env.fetchText source_id
    if text = "" then none
    else
      some { source_type := "url"
             content_hash := hashText text
             summary_text := ""
             last_indexed_at := formatRfc3339 now
             summary_pending := true
             file := none
             url := some { url := source_id
                           last_fetched_at := formatRfc3339 now
                           etag := none
                           last_modified := none
                           fetch_status := "success"
                           next_check_at := formatRfc3339 (now + cfg.url_refresh_min_interval) } }
  else none

/-- `UrlLinksProvider._is_eligible` -/
def isEligible (record : CacheRecord) (now : Nat) : Bool :=
  match record.url with
  | none => false
  | some u =>
    match parseRfc3339 u.next_check_at with
    | none => true
    | some next_check => next_check ≤ now

/-- `UrlLinksProvider._mark_url_failure` -/
def markUrlFailure (cfg : Config) (record : CacheRecord) (status : String) (now : Nat) :
    CacheRecord × Bool :=
  match record.url with
  | none => (record, false)
  | some u =>
    ({ record with
        url := some { u with
          fetch_status := status
          next_check_at := formatRfc3339 (now + cfg.runtime_refresh_tick) } }, true)

/-- `UrlLinksProvider._refresh_one` -/
def urlRefreshOne (cfg : Config) (env : Env) (now : Nat) (record : CacheRecord) :
    CacheRecord × Bool :=
  match record.url with
  | none => (record, false)
  | some url_meta =>
    match env.cond url_meta.url url_meta.etag url_meta.last_modified with
    | .timeout => markUrlFailure cfg record "timeout" now
    | .netError => markUrlFailure cfg record "error" now
    | .unexpected => markUrlFailure cfg record "error" now
    | .reply status etag last_modified =>
      if status = 304 then
        ({ record with
            url := some { url_meta with
              fetch_status := "not_modified"
              last_fetched_at := formatRfc3339 now
              next_check_at := formatRfc3339 (now + cfg.url_refresh_min_interval) } }, true)
      else if status ≠ 200 then markUrlFailure cfg record "error" now
      else
        let text := env.fetchText url_meta.url
        if text = "" then markUrlFailure cfg record "error" now
        else
          let content_hash := hashText text
          let u' := { url_meta with
                      etag := etag
                      last_modified := last_modified
                      fetch_status := "success"
                      last_fetched_at := formatRfc3339 now
                      next_check_at := formatRfc3339 (now + cfg.url_refresh_min_interval) }
          let should_summarize := content_hash ≠ record.content_hash ∨
            record.summary_pending = true ∨ pyStrip record.summary_text = ""
          let r' := { record with
                      url := some u'
                      content_hash := content_hash
                      summary_pending := if should_summarize then true else record.summary_pending }
          (r', true)

/-- `UrlLinksProvider.refresh`: the eligible url-typed records, then one
`_refresh_one` each (concurrent tasks each mutate only their own
record, so the sequential fold is faithful). -/
def urlRefresh (cfg : Config) (env : Env) (now : Nat) (cache : CacheState) : CacheState × Bool :=
  let eligibles := cache.sources.filterMap (fun p =>
    if p.2.source_type = "url" ∧ p.2.url.isSome ∧ isEligible p.2 now then some p.1 else none)
  eligibles.foldl (fun acc sid =>
    match lookupA acc.1.sources sid with
    | none => acc
    | some record =>
      let step := urlRefreshOne cfg env now record
      ({ acc.1 with sources := setA acc.1.sources sid step.1 }, acc.2 || step.2))
    (cache, false)

/-- `UrlLinksProvider.load_text`.  `self._urls.get(source_id) or
source_id` always yields `source_id` itself (`_urls` maps each url to
itself).  `get_cached_content` is modelled from the spec — see
`Env.cachedText`. -/
def urlLoadText (env : Env) (source_id : String) : Option String :=
  env.cachedText source_id

/-- Decidable equality for tick outcomes (used by concrete witnesses). -/
instance {e a : Type} [DecidableEq e] [DecidableEq a] : DecidableEq (Except e a) := fun x y =>
  match x, y with
  | .error u, .error v =>
    if h : u = v then isTrue (by rw [h]) else isFalse (by intro hc; cases hc; exact h rfl)
  | .error _, .ok _ => isFalse (by intro hc; cases hc)
  | .ok _, .error _ => isFalse (by intro hc; cases hc)
  | .ok u, .ok v =>
    if h : u = v then isTrue (by rw [h]) else isFalse (by intro hc; cases hc; exact h rfl)

/-- Whether a tick outcome is a raised exception. -/
def exceptIsError {α : Type} : Except String α → Bool
  | .error _ => true
  | .ok _ => false

/-- One atomic persistence: the cache snapshot written to the cache file
and the text written to the index file (`KnowledgeIndexer._persist`). -/
structure PersistEvent where
  cache_snapshot : CacheState
  index_text : String
deriving DecidableEq, Repr

/-- `KnowledgeIndexer._persist`: stamp `generated_at`, write the cache
file and rebuild the index file. -/
def persist (cfg : Config) (now : Nat) (cache : CacheState) : CacheState × List PersistEvent :=
  let cache' := { cache with generated_at := formatRfc3339 now }
  (cache', [⟨cache', renderIndex cache' cfg.source_type_order cfg.index_pfx⟩])

/-- Dispatch to the owning provider's `init_record` (ownership is the
provider that discovered the id, identified by its source type). -/
def initOf (cfg : Config) (env : Env) (ty source_id : String) (now : Nat) : Option CacheRecord :=
  if ty = "file" then fileInit env source_id now
  else if ty = "url" then urlInit cfg env source_id now
  else none

/-- Dispatch to the owning provider's `load_text`. -/
def loadTextOf (env : Env) (ty source_id : String) : Option String :=
  if ty = "file" then fileLoadText env source_id
  else if ty = "url" then urlLoadText env source_id
  else none

/-- The accumulation loop of `KnowledgeIndexer._discover_sources`: fail
on a `source_id` already seen. -/
def combineDiscovered (acc : List (String × String)) :
    List (String × String) → Except String (List (String × String))
  | [] => .ok acc
  | (source_id, ty) :: rest =>
    if (lookupA acc source_id).isSome then
      .error ("Duplicate source_id discovered: " ++ source_id)
    else combineDiscovered (acc ++ [(source_id, ty)]) rest

/-- `KnowledgeIndexer._discover_sources` over the provider list
`[FileFolderProvider, UrlLinksProvider]` (the main knowledge-base
configuration). -/
def discoverSources (env : Env) : Except String (List (String × String)) :=
  combineDiscovered [] (fileDiscover env ++ urlDiscover env)

/-- `KnowledgeIndexer._reconcile` -/
def reconcile (cfg : Config) (env : Env) (now : Nat) (discovered : List (String × String))
    (cache : CacheState) : CacheState × Bool :=
  let kept := cache.sources.filter (fun p => (lookupA discovered p.1).isSome)
  let removedAny := kept.length ≠ cache.sources.length
  let step := discovered.foldl (fun acc p =>
    match lookupA acc.1 p.1 with
    | some record =>
      if record.source_type = p.2 then acc
      else
        match initOf cfg env p.2 p.1 now with
        | none => acc
        | some initialized => (setA acc.1 p.1 initialized, true)
    | none =>
      match initOf cfg env p.2 p.1 now with
      | none => acc
      | some initialized => (acc.1 ++ [(p.1, initialized)], true)) (kept, false)
  let changed := removedAny || step.2
  ({ cache with
     sources := step.1
     generated_at := if changed then formatRfc3339 now else cache.generated_at }, changed)

/-- `KnowledgeIndexer._summarize_one`.  The semaphore only bounds
concurrency; the task body is sequentialized.  The re-validation
`current is not record` (object identity) is structural equality here:
under the run-mutex and the sequential model they coincide. -/
def summarizeOne (cfg : Config) (env : Env) (now : Nat) (ty source_id : String)
    (record : CacheRecord) (cache : CacheState) : CacheState × List PersistEvent :=
  match loadTextOf env ty source_id with
  | none => (cache, [])
  | some text =>
    if text = "" ∨ pyStrip text = "" then (cache, [])
    else
      match env.enrich text with
      | none => (cache, [])
      | some raw =>
        let summary := pyStrip raw
        match lookupA cache.sources source_id with
        | none => (cache, [])
        | some current =>
          if current = record ∧ current.summary_pending = true then
            let updated := { current with
                             summary_text := summary
                             last_indexed_at := formatRfc3339 now
                             summary_pending := false }
            persist cfg now { cache with sources := setA cache.sources source_id updated }
          else (cache, [])

/-- `KnowledgeIndexer._summarize_pending`: collect every pending record
whose owner is known, then run the per-record tasks (sequentialized —
each task touches only its own record). -/
def summarizePending (cfg : Config) (env : Env) (now : Nat)
    (discovered : List (String × String)) (cache : CacheState) : CacheState × List PersistEvent :=
  let pend := cache.sources.filterMap (fun p =>
    if p.2.summary_pending = true then
      (lookupA discovered p.1).map (fun ty => (p.1, ty, p.2))
    else none)
  pend.foldl (fun acc t =>
    let step := summarizeOne cfg env now t.2.1 t.1 t.2.2 acc.1
    (step.1, acc.2 ++ step.2)) (cache, [])

/-- `KnowledgeIndexer._run_once_locked` for the two-provider
configuration.  The input state is the decoded cache file; persistence
events record every atomic cache-file/index-file write of the tick.
The only uncaught exception is the duplicate-source-id `ValueError`
(provider refresh failures are swallowed per provider, and fetch or
enrichment failures are already `Option` results in the environment). -/
def runOnce (cfg : Config) (env : Env) (now : Nat) (state : CacheState) :
    Except String CacheState × List PersistEvent :=
  let cache := if state.schema_version ≠ SchemaVersion then emptyState now else state
  match discoverSources env with
  | .error e => (.error e, [])
  | .ok discovered =>
    let rec1 := reconcile cfg env now discovered cache
    let ref1 := fileRefresh env rec1.1
    let ref2 := urlRefresh cfg env now ref1.1
    let changed := rec1.2 || ref1.2 || ref2.2
    let per := if changed then persist cfg now ref2.1 else (ref2.1, [])
    let summ := summarizePending cfg env now discovered per.1
    (.ok summ.1, per.2 ++ summ.2)

/-- A summarization attempt for this source id fails or is skipped:
no text, blank text, or a failing enrichment call.  The outcome depends
only on the environment, never on the cache state. -/
def attemptFails (env : Env) (ty source_id : String) : Prop :=
  match loadTextOf env ty source_id with
  | none => True
  | some text => (text = "" ∨ pyStrip text = "") ∨ env.enrich text = none

/-- The file-refresh loop body leaves this record untouched and reports
no change. -/
def fileStepNoop (info : FileInfo) (rel_path : String) (record : CacheRecord) : Prop :=
  (fileRefreshOne info rel_path record).1 = record ∧
    (fileRefreshOne info rel_path record).2.1 = false

/-- A trivial concrete configuration (used to evaluate theorems on
concrete inputs). -/
def wCfg : Config :=
  { index_pfx := "kb:"
    source_type_order := ["file", "url"]
    url_refresh_min_interval := 3600
    runtime_refresh_tick := 60 }

/-- A trivial concrete environment: no tracked files, no links file,
every network operation fails. -/
def wEnv : Env :=
  { files := []
    linksLines := none
    cond := fun _ _ _ => CondReply.timeout
    fetchText := fun _ => ""
    cachedText := fun _ => none
    enrich := fun _ => none }

/-! ## Supporting lemmas -/

/-- A character list that does not start with whitespace. -/
def noLeadWS (l : List Char) : Prop := ∀ c ∈ l.head?, ¬ c.isWhitespace

@[simp] theorem lookupA_nil {α : Type} (k : String) : lookupA ([] : List (String × α)) k = none := rfl

@[simp] theorem lookupA_cons {α : Type} (k' : String) (v : α) (t : List (String × α)) (k : String) :
    lookupA ((k', v) :: t) k = if k' = k then some v else lookupA t k := rfl

@[simp] theorem setA_nil {α : Type} (k : String) (v : α) : setA ([] : List (String × α)) k v = [(k, v)] := rfl

@[simp] theorem setA_cons {α : Type} (k' : String) (v' : α) (t : List (String × α)) (k : String) (v : α) :
    setA ((k', v') :: t) k v = if k' = k then (k, v) :: t else (k', v') :: setA t k v := rfl

theorem setA_eq_of_lookup {α : Type} {l : List (String × α)} {k : String} {v : α}
    (h : lookupA l k = some v) : setA l k v = l := by
  induction l with
  | nil => simp at h
  | cons p t ih =>
    obtain ⟨k', v'⟩ := p
    by_cases hk : k' = k
    · subst hk
      simp at h
      simp [h]
    · simp [hk] at h ⊢
      exact ih h

theorem lookupA_mem_keys {α : Type} {l : List (String × α)} {k : String} :
    (lookupA l k).isSome ↔ k ∈ l.map Prod.fst := by
  induction l with
  | nil => simp
  | cons p t ih =>
    obtain ⟨k', v'⟩ := p
    by_cases hk : k' = k
    · subst hk; simp
    · simp [hk, Ne.symm hk, ih]

theorem lookupA_eq_none {α : Type} {l : List (String × α)} {k : String} :
    lookupA l k = none ↔ k ∉ l.map Prod.fst := by
  rw [← lookupA_mem_keys]
  cases lookupA l k <;> simp

theorem dropWhile_ws_eq_self {l : List Char} (h : noLeadWS l) :
    l.dropWhile Char.isWhitespace = l := by
  cases l with
  | nil => rfl
  | cons a t =>
    have ha : ¬ a.isWhitespace := h a rfl
    simp [List.dropWhile_cons, ha]

theorem dropWhile_ws_append_eq {m : List Char} (hm : noLeadWS m) (hne : m ≠ [])
    (r : List Char) : (m ++ r).dropWhile Char.isWhitespace = m ++ r := by
  cases m with
  | nil => exact absurd rfl hne
  | cons a t =>
    have ha : ¬ a.isWhitespace := hm a rfl
    simp [List.dropWhile_cons, ha]

theorem noLeadWS_dropWhile (l : List Char) :
    noLeadWS (l.dropWhile Char.isWhitespace) := by
  induction l with
  | nil => intro c hc; simp at hc
  | cons a t ih =>
    by_cases ha : a.isWhitespace
    · simpa [List.dropWhile_cons, ha] using ih
    · intro c hc
      simp [List.dropWhile_cons, ha] at hc
      simpa [← hc] using ha

theorem head?_of_pfx {l m : List Char} (h : l <+: m) (hne : l ≠ []) :
    l.head? = m.head? := by
  obtain ⟨t, rfl⟩ := h
  cases l with
  | nil => exact absurd rfl hne
  | cons a t' => rfl

theorem noLeadWS_of_pfx {l m : List Char} (h : l <+: m) (hm : noLeadWS m) :
    noLeadWS l := by
  intro c hc
  have hne : l ≠ [] := by rintro rfl; simp at hc
  rw [head?_of_pfx h hne] at hc
  exact hm c hc

theorem noLeadWS_stripL (l : List Char) : noLeadWS (stripL l) := by
  have hsfx : ((l.dropWhile Char.isWhitespace).reverse.dropWhile Char.isWhitespace)
      <:+ (l.dropWhile Char.isWhitespace).reverse := List.dropWhile_suffix _
  have hpre : stripL l <+: (l.dropWhile Char.isWhitespace).reverse.reverse :=
    List.reverse_prefix.mpr hsfx
  rw [List.reverse_reverse] at hpre
  exact noLeadWS_of_pfx hpre (noLeadWS_dropWhile l)

theorem noLeadWS_stripL_reverse (l : List Char) : noLeadWS (stripL l).reverse := by
  unfold stripL
  rw [List.reverse_reverse]
  exact noLeadWS_dropWhile _

theorem stripL_eq_self {l : List Char} (hf : noLeadWS l) (hb : noLeadWS l.reverse) :
    stripL l = l := by
  unfold stripL
  rw [dropWhile_ws_eq_self hf, dropWhile_ws_eq_self hb, List.reverse_reverse]

theorem stripL_idem (l : List Char) : stripL (stripL l) = stripL l :=
  stripL_eq_self (noLeadWS_stripL l) (noLeadWS_stripL_reverse l)

theorem stripL_block {a b : List Char}
    (haf : noLeadWS a) (hab : noLeadWS a.reverse)
    (hbf : noLeadWS b) (hbb : noLeadWS b.reverse) (hbne : b ≠ []) :
    stripL (a ++ '\n' :: b) = if a = [] then b else a ++ '\n' :: b := by
  by_cases hae : a = []
  · subst hae
    rw [if_pos rfl, List.nil_append]
    have h1 : ('\n' :: b).dropWhile Char.isWhitespace = b.dropWhile Char.isWhitespace := by
      have : ('\n' : Char).isWhitespace = true := by decide
      simp [List.dropWhile_cons, this]
    unfold stripL
    rw [h1, dropWhile_ws_eq_self hbf, dropWhile_ws_eq_self hbb, List.reverse_reverse]
  · rw [if_neg hae]
    unfold stripL
    rw [dropWhile_ws_append_eq haf hae]
    have hrev : (a ++ '\n' :: b).reverse = b.reverse ++ ('\n' :: a.reverse) := by
      simp
    rw [hrev]
    have hbrev : b.reverse ≠ [] := by simpa using hbne
    rw [dropWhile_ws_append_eq hbb hbrev, ← hrev, List.reverse_reverse]

theorem decodeRecord_encodeRecord (r : CacheRecord) : decodeRecord (encodeRecord r) = some r := by
  obtain ⟨st, ch, sm, li, sp, f, u⟩ := r
  cases f <;> rcases u with _ | ⟨uurl, ulf, uet, ulm, ufs, unc⟩
  all_goals try cases uet
  all_goals try cases ulm
  all_goals
    simp [decodeRecord, encodeRecord, decodeFileMeta, decodeUrlMeta, truthy,
      jsonToStr, jsonToInt, jsonToTs, jsonToOptStr, lookupA]

theorem decodeSources_map (l : List (String × CacheRecord)) :
    decodeSources (l.map (fun p => (p.1, encodeRecord p.2))) = some l := by
  induction l with
  | nil => rfl
  | cons p t ih => simp [decodeSources, decodeRecord_encodeRecord, ih]

theorem mem_insertByKey {β : Type} {x y : String × β} {l : List (String × β)} :
    x ∈ insertByKey y l ↔ x = y ∨ x ∈ l := by
  induction l with
  | nil => simp [insertByKey]
  | cons z t ih =>
    by_cases hz : z.1 ≤ y.1
    · simp [insertByKey, hz, ih]
      try tauto
    · simp [insertByKey, hz]
      try tauto

theorem mem_sortByKey_aux {β : Type} {x : String × β} (l acc : List (String × β)) :
    x ∈ l.foldl (fun acc z => insertByKey z acc) acc ↔ x ∈ acc ∨ x ∈ l := by
  induction l generalizing acc with
  | nil => simp
  | cons z t ih =>
    simp only [List.foldl_cons, ih, mem_insertByKey, List.mem_cons]
    tauto

theorem mem_sortByKey {β : Type} {x : String × β} {l : List (String × β)} :
    x ∈ sortByKey l ↔ x ∈ l := by
  simpa using mem_sortByKey_aux l []

theorem strEq {s t : String} (h : s.data = t.data) : s = t := by
  cases s; cases t
  exact congrArg String.mk h

theorem pyStrip_ne_empty_data {s : String} (h : pyStrip s ≠ "") : stripL s.data ≠ [] := by
  intro hnil
  apply h
  show (⟨stripL s.data⟩ : String) = ⟨[]⟩
  rw [hnil]

theorem pyStrip_idem (s : String) : pyStrip (pyStrip s) = pyStrip s := by
  show (⟨stripL (pyStrip s).data⟩ : String) = pyStrip s
  rw [show (pyStrip s).data = stripL s.data from rfl, stripL_idem]
  rfl

theorem pyStrip_block (x : String) {y : String} (hy : pyStrip y ≠ "") :
    pyStrip (pyStrip x ++ "\n" ++ pyStrip y) =
      if pyStrip x = "" then pyStrip y else pyStrip x ++ "\n" ++ pyStrip y := by
  have hdata : (pyStrip x ++ "\n" ++ pyStrip y).data = stripL x.data ++ '\n' :: stripL y.data := by
    show ((pyStrip x).data ++ ['\n']) ++ (pyStrip y).data = stripL x.data ++ '\n' :: stripL y.data
    rw [List.append_assoc]
    rfl
  have hb := stripL_block (a := stripL x.data) (b := stripL y.data)
    (noLeadWS_stripL x.data) (noLeadWS_stripL_reverse x.data)
    (noLeadWS_stripL y.data) (noLeadWS_stripL_reverse y.data)
    (pyStrip_ne_empty_data hy)
  show (⟨stripL (pyStrip x ++ "\n" ++ pyStrip y).data⟩ : String) = _
  rw [hdata, hb]
  by_cases hxe : stripL x.data = []
  · have hxs : pyStrip x = "" := by
      show (⟨stripL x.data⟩ : String) = ⟨[]⟩
      rw [hxe]
    rw [if_pos hxe, if_pos hxs]
    rfl
  · have hxs : pyStrip x ≠ "" := by
      intro hcon
      exact hxe (congrArg String.data hcon)
    rw [if_neg hxe, if_neg hxs]
    exact (strEq hdata).symm

theorem pyStrip_entry_ne {x y : String} (hy : pyStrip y ≠ "") :
    pyStrip (pyStrip x ++ "\n" ++ pyStrip y) ≠ "" := by
  rw [pyStrip_block x hy]
  by_cases hxs : pyStrip x = ""
  · rwa [if_pos hxs]
  · rw [if_neg hxs]
    intro hcon
    have hd : ((pyStrip x).data ++ ['\n']) ++ (pyStrip y).data = [] :=
      congrArg String.data hcon
    simp at hd

theorem group_mem_shape {cache : CacheState} {ty : String} {p : String × String}
    (hp : p ∈ sortByKey (indexGroup cache ty)) :
    ∃ y, p.2 = pyStrip y ∧ pyStrip y ≠ "" := by
  rw [mem_sortByKey, indexGroup, List.mem_filterMap] at hp
  obtain ⟨q, hq, hif⟩ := hp
  by_cases hc : q.2.source_type = ty ∧ pyStrip q.2.summary_text ≠ ""
  · rw [if_pos hc] at hif
    refine ⟨q.2.summary_text, ?_, hc.2⟩
    cases hif
    rfl
  · rw [if_neg hc] at hif
    cases hif

theorem combineDiscovered_error_mem {l : List (String × String)} {acc : List (String × String)}
    {sid : String} (hacc : sid ∈ acc.map Prod.fst) (hl : sid ∈ l.map Prod.fst) :
    exceptIsError (combineDiscovered acc l) = true := by
  induction l generalizing acc with
  | nil => simp at hl
  | cons p t ih =>
    obtain ⟨k, ty⟩ := p
    unfold combineDiscovered
    by_cases hk : (lookupA acc k).isSome
    · simp [hk, exceptIsError]
    · rw [if_neg hk]
      simp only [List.map_cons, List.mem_cons] at hl
      rcases hl with rfl | hl
      · exact absurd (lookupA_mem_keys.mpr hacc) hk
      · exact ih (by simp [hacc]) hl

theorem combineDiscovered_error_append {l₁ l₂ : List (String × String)}
    {acc : List (String × String)} (sid : String)
    (h1 : sid ∈ acc.map Prod.fst ∨ sid ∈ l₁.map Prod.fst) (h2 : sid ∈ l₂.map Prod.fst) :
    exceptIsError (combineDiscovered acc (l₁ ++ l₂)) = true := by
  induction l₁ generalizing acc with
  | nil =>
    rcases h1 with hacc | h1
    · exact combineDiscovered_error_mem hacc h2
    · simp at h1
  | cons p t ih =>
    obtain ⟨k, ty⟩ := p
    show exceptIsError (combineDiscovered acc ((k, ty) :: (t ++ l₂))) = true
    unfold combineDiscovered
    by_cases hk : (lookupA acc k).isSome
    · simp [hk, exceptIsError]
    · rw [if_neg hk]
      rcases h1 with hacc | h1
      · exact ih (Or.inl (by simp [hacc]))
      · simp only [List.map_cons, List.mem_cons] at h1
        rcases h1 with rfl | h1
        · exact ih (Or.inl (by simp))
        · exact ih (Or.inr h1)

/-! ### Association-list facts -/

theorem lookupA_some_mem {α : Type} {l : List (String × α)} {k : String} {v : α}
    (h : lookupA l k = some v) : (k, v) ∈ l := by
  induction l with
  | nil => simp at h
  | cons p t ih =>
    obtain ⟨k', v'⟩ := p
    by_cases hk : k' = k
    · subst hk
      simp at h
      simp [h]
    · simp [hk] at h
      simp [ih h]

theorem mem_lookupA_nodup {α : Type} {l : List (String × α)} {k : String} {v : α}
    (hnd : (l.map Prod.fst).Nodup) (h : (k, v) ∈ l) : lookupA l k = some v := by
  induction l with
  | nil => simp at h
  | cons p t ih =>
    obtain ⟨k', v'⟩ := p
    simp only [List.map_cons, List.nodup_cons] at hnd
    rcases List.mem_cons.mp h with heq | hmem
    · cases heq
      simp
    · have hk : k' ≠ k := by
        intro hkk
        subst hkk
        exact hnd.1 (by simpa using List.mem_map_of_mem Prod.fst hmem)
      simp [hk, ih hnd.2 hmem]

theorem lookupA_setA_self {α : Type} (l : List (String × α)) (k : String) (v : α) :
    lookupA (setA l k v) k = some v := by
  induction l with
  | nil => simp
  | cons p t ih =>
    obtain ⟨k', v'⟩ := p
    by_cases hk : k' = k
    · subst hk; simp
    · simp [hk, ih]

theorem lookupA_setA_ne {α : Type} {l : List (String × α)} {k k' : String} (v : α)
    (h : k' ≠ k) : lookupA (setA l k v) k' = lookupA l k' := by
  induction l with
  | nil => simp [Ne.symm h]
  | cons p t ih =>
    obtain ⟨k₀, v₀⟩ := p
    by_cases hk : k₀ = k
    · subst hk
      have hne : k₀ ≠ k' := Ne.symm h
      simp [hne]
    · by_cases hk' : k₀ = k'
      · simp [hk, hk', h]
      · simp [hk, hk', ih]

theorem keys_setA_of_mem {α : Type} {l : List (String × α)} {k : String} (v : α)
    (h : (lookupA l k).isSome) : (setA l k v).map Prod.fst = l.map Prod.fst := by
  induction l with
  | nil => simp at h
  | cons p t ih =>
    obtain ⟨k', v'⟩ := p
    by_cases hk : k' = k
    · subst hk; simp
    · simp only [lookupA_cons, if_neg hk] at h
      simp [hk, ih h]

theorem nodup_setA {α : Type} {l : List (String × α)} {k : String} (v : α)
    (hnd : (l.map Prod.fst).Nodup) : ((setA l k v).map Prod.fst).Nodup := by
  by_cases h : (lookupA l k).isSome
  · rwa [keys_setA_of_mem v h]
  · have hnone : lookupA l k = none := by
      cases hl : lookupA l k
      · rfl
      · rw [hl] at h; simp at h
    have hnm := lookupA_eq_none.mp hnone
    have hkeys : (setA l k v).map Prod.fst = l.map Prod.fst ++ [k] := by
      clear h hnone
      induction l with
      | nil => simp
      | cons p t ih =>
        obtain ⟨k', v'⟩ := p
        simp only [List.map_cons, List.mem_cons, not_or] at hnm
        simp only [List.map_cons, List.nodup_cons] at hnd
        simp [Ne.symm hnm.1, ih hnd.2 hnm.2]
    rw [hkeys, List.nodup_append]
    refine ⟨hnd, List.nodup_singleton k, ?_⟩
    intro a ha hb
    simp only [List.mem_singleton] at hb
    subst hb
    exact hnm ha

theorem lookupA_append_some {α : Type} {l : List (String × α)} {k' : String} {v' : α}
    (h : lookupA l k' = some v') (k : String) (v : α) :
    lookupA (l ++ [(k, v)]) k' = some v' := by
  induction l with
  | nil => simp at h
  | cons p t ih =>
    obtain ⟨k₀, v₀⟩ := p
    by_cases hk : k₀ = k'
    · simp [hk] at h ⊢
      exact h
    · simp [hk] at h ⊢
      exact ih h

theorem lookupA_append_none {α : Type} {l : List (String × α)} {k' : String}
    (h : lookupA l k' = none) (k : String) (v : α) :
    lookupA (l ++ [(k, v)]) k' = if k = k' then some v else none := by
  induction l with
  | nil => simp
  | cons p t ih =>
    obtain ⟨k₀, v₀⟩ := p
    by_cases hk : k₀ = k'
    · simp [hk] at h
    · simp [hk] at h ⊢
      exact ih h

/-- The key list produced by an eligibility filter is a sublist of the
source key list (hence nodup when the source is). -/
theorem pickKeys_sublist {β : Type} (c : String × β → Bool) (l : List (String × β)) :
    List.Sublist (l.filterMap (fun p => if c p then some p.1 else none)) (l.map Prod.fst) := by
  induction l with
  | nil => simp
  | cons p t ih =>
    by_cases hc : c p
    · simpa [hc] using List.Sublist.cons₂ p.1 ih
    · simpa [hc] using List.Sublist.cons p.1 ih

/-- Same for the pending-collection filter of the Summarize phase. -/
theorem pendKeys_sublist (d : List (String × String)) (l : List (String × CacheRecord)) :
    List.Sublist ((l.filterMap (fun p =>
      if p.2.summary_pending = true then
        (lookupA d p.1).map (fun ty => (p.1, ty, p.2))
      else none)).map Prod.fst) (l.map Prod.fst) := by
  induction l with
  | nil => simp
  | cons p t ih =>
    by_cases hp : p.2.summary_pending = true
    · cases hd : lookupA d p.1 with
      | none => simpa [hp, hd] using List.Sublist.cons p.1 ih
      | some ty => simpa [hp, hd] using List.Sublist.cons₂ p.1 ih
    · simpa [hp] using List.Sublist.cons p.1 ih

/-! ### Record-level step facts -/

theorem initOf_none_mono {cfg : Config} {env : Env} {ty sid : String} {now now' : Nat}
    (h : initOf cfg env ty sid now = none) : initOf cfg env ty sid now' = none := by
  unfold initOf fileInit urlInit at h ⊢
  by_cases hf : ty = "file"
  · rw [if_pos hf] at h ⊢
    cases hl : lookupA env.files sid with
    | none => simp [hl]
    | some info =>
      cases hs : info.stat with
      | none => simp [hl, hs]
      | some p =>
        obtain ⟨sz, mt⟩ := p
        cases hc : info.content with
        | none => simp [hl, hs, hc]
        | some text => simp [hl, hs, hc] at h
  · by_cases hu : ty = "url"
    · rw [if_neg hf, if_pos hu] at h ⊢
      by_cases hmem : sid ∈ discoverUrls env
      · by_cases hT : env.fetchText sid = ""
        · simp [hmem, hT]
        · simp [hmem, hT] at h
      · simp [hmem]
    · rw [if_neg hf, if_neg hu] at h ⊢

theorem initOf_source_type {cfg : Config} {env : Env} {ty sid : String} {now : Nat}
    {r : CacheRecord} (h : initOf cfg env ty sid now = some r) : r.source_type = ty := by
  unfold initOf fileInit urlInit at h
  by_cases hf : ty = "file"
  · rw [if_pos hf] at h
    cases hl : lookupA env.files sid with
    | none => simp [hl] at h
    | some info =>
      cases hs : info.stat with
      | none => simp [hl, hs] at h
      | some p =>
        obtain ⟨sz, mt⟩ := p
        cases hc : info.content with
        | none => simp [hl, hs, hc] at h
        | some text =>
          simp only [hl, hs, hc, Option.some.injEq] at h
          rw [← h, hf]
  · by_cases hu : ty = "url"
    · rw [if_neg hf, if_pos hu] at h
      by_cases hmem : sid ∈ discoverUrls env
      · by_cases hT : env.fetchText sid = ""
        · simp [hmem, hT] at h
        · simp only [hmem, hT, if_pos, reduceIte, Option.some.injEq] at h
          rw [← h, hu]
      · simp [hmem] at h
    · rw [if_neg hf, if_neg hu] at h
      simp at h

theorem fileRefreshOne_source_type (info : FileInfo) (rel_path : String) (r : CacheRecord) :
    (fileRefreshOne info rel_path r).1.source_type = r.source_type := by
  unfold fileRefreshOne
  cases info.stat with
  | none => rfl
  | some p =>
    obtain ⟨sz, mt⟩ := p
    by_cases hm : (r.file.getD ⟨rel_path, sz, mt⟩).size_bytes = sz ∧
        (r.file.getD ⟨rel_path, sz, mt⟩).mtime_ns = mt
    · simp [hm]
    · cases hc : info.content with
      | none => simp [hm]
      | some text =>
        by_cases hs : hashText text ≠ r.content_hash ∨ r.summary_pending = true
        · simp [hm, hs]
        · simp [hm, hs]

theorem urlRefreshOne_frame (cfg : Config) (env : Env) (now : Nat) (r : CacheRecord) :
    (urlRefreshOne cfg env now r).1.source_type = r.source_type ∧
      (urlRefreshOne cfg env now r).1.file = r.file := by
  unfold urlRefreshOne markUrlFailure
  cases hu : r.url with
  | none => simp
  | some u =>
    simp only [hu]
    cases hc : env.cond u.url u.etag u.last_modified with
    | timeout => simp [hu]
    | netError => simp [hu]
    | unexpected => simp [hu]
    | reply status etag lm =>
      by_cases h304 : status = 304
      · simp [h304]
      · by_cases h200 : status ≠ 200
        · simp [h304, h200, hu]
        · by_cases hT : env.fetchText u.url = ""
          · simp [h304, h200, hT, hu]
          · simp [h304, h200, hT]

theorem fileRefreshOne_idem (info : FileInfo) (rel_path : String) (r : CacheRecord) :
    fileStepNoop info rel_path (fileRefreshOne info rel_path r).1 := by
  unfold fileStepNoop fileRefreshOne
  cases hs : info.stat with
  | none => simp
  | some p =>
    obtain ⟨sz, mt⟩ := p
    by_cases hm : (r.file.getD ⟨rel_path, sz, mt⟩).size_bytes = sz ∧
        (r.file.getD ⟨rel_path, sz, mt⟩).mtime_ns = mt
    · simp [hm]
    · cases hc : info.content with
      | none => simp [hm]
      | some text =>
        by_cases hp : hashText text ≠ r.content_hash ∨ r.summary_pending = true
        · simp [hm, hp]
        · simp [hm, hp]

theorem fileStepNoop_of_file_eq {info : FileInfo} {rel_path : String}
    {r r' : CacheRecord} (hf : r'.file = r.file) (h : fileStepNoop info rel_path r) :
    fileStepNoop info rel_path r' := by
  unfold fileStepNoop fileRefreshOne at h ⊢
  cases hs : info.stat with
  | none => simp
  | some p =>
    obtain ⟨sz, mt⟩ := p
    rw [hs] at h
    by_cases hm : (r.file.getD ⟨rel_path, sz, mt⟩).size_bytes = sz ∧
        (r.file.getD ⟨rel_path, sz, mt⟩).mtime_ns = mt
    · simp [hf, hm]
    · cases hc : info.content with
      | none => simp [hf, hm]
      | some text =>
        rw [hc] at h
        simp [hm] at h

theorem summarizeOne_noop (cfg : Config) (env : Env) (now : Nat) (ty sid : String)
    (rec : CacheRecord) (cache : CacheState) (h : attemptFails env ty sid) :
    summarizeOne cfg env now ty sid rec cache = (cache, []) := by
  unfold summarizeOne
  unfold attemptFails at h
  cases hl : loadTextOf env ty sid with
  | none => rfl
  | some text =>
    rw [hl] at h
    rcases h with hempty | henr
    · simp [hempty]
    · by_cases hempty : text = "" ∨ pyStrip text = ""
      · simp [hempty]
      · simp [hempty, henr]

/-! ### Phase no-op lemmas (second tick) -/

theorem urlRefresh_noop (cfg : Config) (env : Env) (now : Nat) (st : CacheState)
    (h : ∀ p ∈ st.sources, isEligible p.2 now = false) :
    urlRefresh cfg env now st = (st, false) := by
  unfold urlRefresh
  have he : st.sources.filterMap (fun p =>
      if p.2.source_type = "url" ∧ p.2.url.isSome ∧ isEligible p.2 now then some p.1 else none)
      = [] := by
    rw [List.filterMap_eq_nil_iff]
    intro p hp
    simp [h p hp]
  simp [he]

theorem summarizeFold_noop (cfg : Config) (env : Env) (now : Nat)
    (l : List (String × String × CacheRecord)) :
    ∀ (st : CacheState) (ws : List PersistEvent),
      (∀ t ∈ l, attemptFails env t.2.1 t.1) →
      l.foldl (fun acc t =>
        let step := summarizeOne cfg env now t.2.1 t.1 t.2.2 acc.1
        (step.1, acc.2 ++ step.2)) (st, ws) = (st, ws) := by
  induction l with
  | nil => intro st ws _; rfl
  | cons t rest ih =>
    intro st ws hall
    rw [List.foldl_cons]
    have h1 := summarizeOne_noop cfg env now t.2.1 t.1 t.2.2 st (hall t (by simp))
    simp only [h1, List.append_nil]
    exact ih st ws (fun t' ht' => hall t' (by simp [ht']))

theorem summarizePending_noop (cfg : Config) (env : Env) (now : Nat)
    (d : List (String × String)) (st : CacheState)
    (h : ∀ p ∈ st.sources, p.2.summary_pending = true →
      ∀ ty, lookupA d p.1 = some ty → attemptFails env ty p.1) :
    summarizePending cfg env now d st = (st, []) := by
  unfold summarizePending
  refine summarizeFold_noop cfg env now _ st [] ?_
  intro t ht
  rw [List.mem_filterMap] at ht
  obtain ⟨p, hp, hsome⟩ := ht
  by_cases hpd : p.2.summary_pending = true
  · rw [if_pos hpd] at hsome
    cases hd : lookupA d p.1 with
    | none => rw [hd] at hsome; simp at hsome
    | some ty =>
      rw [hd] at hsome
      simp only [Option.map_some'] at hsome
      cases hsome
      exact h p hp hpd ty hd
  · rw [if_neg hpd] at hsome
    simp at hsome

theorem fileRefreshFold_noop (env : Env) (st : CacheState) :
    ∀ (l : List (String × FileInfo)) (b : Bool),
      (∀ p ∈ l, ∀ r, lookupA st.sources p.1 = some r → r.source_type = "file" →
        fileStepNoop p.2 p.1 r) →
      l.foldl (fun acc p =>
        match lookupA acc.1.sources p.1 with
        | none => acc
        | some record =>
          if record.source_type ≠ "file" then acc
          else
            let step := fileRefreshOne p.2 p.1 record
            ({ acc.1 with sources := setA acc.1.sources p.1 step.1 }, acc.2 || step.2.1)) (st, b)
        = (st, b) := by
  intro l
  induction l with
  | nil => intro b _; rfl
  | cons p rest ih =>
    intro b hall
    rw [List.foldl_cons]
    have htail : ∀ q ∈ rest, ∀ r, lookupA st.sources q.1 = some r → r.source_type = "file" →
        fileStepNoop q.2 q.1 r := fun q hq => hall q (by simp [hq])
    cases hl : lookupA st.sources p.1 with
    | none =>
      simp only [hl]
      exact ih b htail
    | some r =>
      by_cases hty : r.source_type = "file"
      · have hnoop := hall p (by simp) r hl hty
        unfold fileStepNoop at hnoop
        simp only [hl, hty, ne_eq, not_true_eq_false, if_false, hnoop.1, hnoop.2,
          setA_eq_of_lookup hl, Bool.or_false]
        exact ih b htail
      · simp only [hl, ne_eq, hty, not_false_eq_true, if_true]
        exact ih b htail

theorem fileRefresh_noop (env : Env) (st : CacheState)
    (h : ∀ p ∈ env.files, ∀ r, lookupA st.sources p.1 = some r → r.source_type = "file" →
      fileStepNoop p.2 p.1 r) :
    fileRefresh env st = (st, false) := by
  unfold fileRefresh
  exact fileRefreshFold_noop env st env.files false h

theorem reconcileFold_noop (cfg : Config) (env : Env) (now : Nat) :
    ∀ (l : List (String × String)) (srcs : List (String × CacheRecord)) (b : Bool),
      (∀ pd ∈ l,
        (match lookupA srcs pd.1 with
         | some r => r.source_type = pd.2 ∨ initOf cfg env pd.2 pd.1 now = none
         | none => initOf cfg env pd.2 pd.1 now = none)) →
      l.foldl (fun acc p =>
        match lookupA acc.1 p.1 with
        | some record =>
          if record.source_type = p.2 then acc
          else
            match initOf cfg env p.2 p.1 now with
            | none => acc
            | some initialized => (setA acc.1 p.1 initialized, true)
        | none =>
          match initOf cfg env p.2 p.1 now with
          | none => acc
          | some initialized => (acc.1 ++ [(p.1, initialized)], true)) (srcs, b) = (srcs, b) := by
  intro l
  induction l with
  | nil => intro srcs b _; rfl
  | cons pd rest ih =>
    intro srcs b hall
    rw [List.foldl_cons]
    have hhead := hall pd (by simp)
    have htail : ∀ q ∈ rest,
        (match lookupA srcs q.1 with
         | some r => r.source_type = q.2 ∨ initOf cfg env q.2 q.1 now = none
         | none => initOf cfg env q.2 q.1 now = none) := fun q hq => hall q (by simp [hq])
    cases hl : lookupA srcs pd.1 with
    | none =>
      rw [hl] at hhead
      simp only [hl, hhead]
      exact ih srcs b htail
    | some r =>
      rw [hl] at hhead
      rcases hhead with hty | hinit
      · simp only [hl, hty, if_true, if_pos rfl]
        exact ih srcs b htail
      · by_cases hty : r.source_type = pd.2
        · simp only [hl, hty, if_pos rfl]
          exact ih srcs b htail
        · simp only [hl, if_neg hty, hinit]
          exact ih srcs b htail

theorem reconcile_noop (cfg : Config) (env : Env) (now : Nat)
    (d : List (String × String)) (st : CacheState)
    (hB : ∀ p ∈ st.sources, (lookupA d p.1).isSome)
    (hD : ∀ pd ∈ d,
      (match lookupA st.sources pd.1 with
       | some r => r.source_type = pd.2 ∨ initOf cfg env pd.2 pd.1 now = none
       | none => initOf cfg env pd.2 pd.1 now = none)) :
    reconcile cfg env now d st = (st, false) := by
  unfold reconcile
  have hkept : st.sources.filter (fun p => (lookupA d p.1).isSome) = st.sources :=
    List.filter_eq_self.mpr (fun p hp => by simpa using hB p hp)
  simp only [hkept, reconcileFold_noop cfg env now d st.sources false hD]
  simp

/-! ### Phase characterizations (first tick) -/

theorem fileRefreshFold_char (env : Env) :
    ∀ (l : List (String × FileInfo)) (st : CacheState) (b : Bool),
      (l.map Prod.fst).Nodup →
      (let res := l.foldl (fun acc p =>
        match lookupA acc.1.sources p.1 with
        | none => acc
        | some record =>
          if record.source_type ≠ "file" then acc
          else
            let step := fileRefreshOne p.2 p.1 record
            ({ acc.1 with sources := setA acc.1.sources p.1 step.1 }, acc.2 || step.2.1)) (st, b)
       res.1.schema_version = st.schema_version ∧
       res.1.generated_at = st.generated_at ∧
       res.1.sources.map Prod.fst = st.sources.map Prod.fst ∧
       (∀ sid, sid ∉ l.map Prod.fst →
         lookupA res.1.sources sid = lookupA st.sources sid) ∧
       (∀ p ∈ l, lookupA res.1.sources p.1 =
         (match lookupA st.sources p.1 with
          | none => none
          | some r =>
            if r.source_type = "file" then some (fileRefreshOne p.2 p.1 r).1 else some r))) := by
  intro l
  induction l with
  | nil =>
    intro st b _
    exact ⟨rfl, rfl, rfl, fun _ _ => rfl, fun p hp => absurd hp (List.not_mem_nil p)⟩
  | cons p rest ih =>
    intro st b hnd
    simp only [List.map_cons, List.nodup_cons] at hnd
    rw [List.foldl_cons]
    cases hl : lookupA st.sources p.1 with
    | none =>
      simp only [hl]
      obtain ⟨ha, hg, hk, hfr, hch⟩ := ih st b hnd.2
      refine ⟨ha, hg, hk, fun sid hsid => hfr sid
        (by simp only [List.map_cons, List.mem_cons, not_or] at hsid; exact hsid.2), ?_⟩
      intro q hq
      rcases List.mem_cons.mp hq with rfl | hq
      · rw [hfr q.1 hnd.1, hl]
      · exact hch q hq
    | some r =>
      by_cases hty : r.source_type = "file"
      · have hred : (if r.source_type ≠ "file" then ((st, b) : CacheState × Bool)
            else ({ st with sources := setA st.sources p.1 (fileRefreshOne p.2 p.1 r).1 },
              b || (fileRefreshOne p.2 p.1 r).2.1)) =
            ({ st with sources := setA st.sources p.1 (fileRefreshOne p.2 p.1 r).1 },
              b || (fileRefreshOne p.2 p.1 r).2.1) := by
          simp [hty]
        simp only [hl, hred]
        set st' : CacheState :=
          { st with sources := setA st.sources p.1 (fileRefreshOne p.2 p.1 r).1 } with hst'
        obtain ⟨ha, hg, hk, hfr, hch⟩ := ih st' (b || (fileRefreshOne p.2 p.1 r).2.1) hnd.2
        have hkeys : st'.sources.map Prod.fst = st.sources.map Prod.fst := by
          rw [hst']
          exact keys_setA_of_mem _ (by simp [hl])
        refine ⟨ha, hg, by rw [hk, hkeys], ?_, ?_⟩
        · intro sid hsid
          simp only [List.map_cons, List.mem_cons, not_or] at hsid
          rw [hfr sid hsid.2, hst']
          exact lookupA_setA_ne _ hsid.1
        · intro q hq
          rcases List.mem_cons.mp hq with rfl | hq
          · rw [hfr q.1 hnd.1, hst']
            show lookupA (setA st.sources q.1 (fileRefreshOne q.2 q.1 r).1) q.1 = _
            rw [lookupA_setA_self, hl]
            simp [hty]
          · have hne : q.1 ≠ p.1 := by
              intro hc
              exact hnd.1 (hc ▸ List.mem_map_of_mem Prod.fst hq)
            rw [hch q hq, hst']
            show (match lookupA (setA st.sources p.1 (fileRefreshOne p.2 p.1 r).1) q.1 with
              | none => none
              | some r =>
                if r.source_type = "file" then some (fileRefreshOne q.2 q.1 r).1 else some r) = _
            rw [lookupA_setA_ne _ hne]
      · simp only [hl, hty, ne_eq, not_false_eq_true, if_true]
        obtain ⟨ha, hg, hk, hfr, hch⟩ := ih st b hnd.2
        refine ⟨ha, hg, hk, fun sid hsid => hfr sid
        (by simp only [List.map_cons, List.mem_cons, not_or] at hsid; exact hsid.2), ?_⟩
        intro q hq
        rcases List.mem_cons.mp hq with rfl | hq
        · rw [hfr q.1 hnd.1, hl]
          simp [hty]
        · exact hch q hq

theorem urlRefreshFold_char (cfg : Config) (env : Env) (now : Nat) :
    ∀ (l : List String) (st : CacheState) (b : Bool),
      l.Nodup →
      (let res := l.foldl (fun acc sid =>
        match lookupA acc.1.sources sid with
        | none => acc
        | some record =>
          let step := urlRefreshOne cfg env now record
          ({ acc.1 with sources := setA acc.1.sources sid step.1 }, acc.2 || step.2)) (st, b)
       res.1.schema_version = st.schema_version ∧
       res.1.generated_at = st.generated_at ∧
       res.1.sources.map Prod.fst = st.sources.map Prod.fst ∧
       (∀ sid, sid ∉ l → lookupA res.1.sources sid = lookupA st.sources sid) ∧
       (∀ sid ∈ l, lookupA res.1.sources sid =
         (match lookupA st.sources sid with
          | none => none
          | some r => some (urlRefreshOne cfg env now r).1))) := by
  intro l
  induction l with
  | nil =>
    intro st b _
    exact ⟨rfl, rfl, rfl, fun _ _ => rfl, fun sid hsid => absurd hsid (List.not_mem_nil sid)⟩
  | cons sid0 rest ih =>
    intro st b hnd
    simp only [List.nodup_cons] at hnd
    rw [List.foldl_cons]
    cases hl : lookupA st.sources sid0 with
    | none =>
      simp only [hl]
      obtain ⟨ha, hg, hk, hfr, hch⟩ := ih st b hnd.2
      refine ⟨ha, hg, hk, fun sid hsid => hfr sid (fun hc => hsid (List.mem_cons_of_mem _ hc)), ?_⟩
      intro sid hsid
      rcases List.mem_cons.mp hsid with rfl | hsid
      · rw [hfr sid hnd.1, hl]
      · exact hch sid hsid
    | some r =>
      simp only [hl]
      set st' : CacheState :=
        { st with sources := setA st.sources sid0 (urlRefreshOne cfg env now r).1 } with hst'
      obtain ⟨ha, hg, hk, hfr, hch⟩ := ih st' (b || (urlRefreshOne cfg env now r).2) hnd.2
      have hkeys : st'.sources.map Prod.fst = st.sources.map Prod.fst := by
        rw [hst']
        exact keys_setA_of_mem _ (by simp [hl])
      refine ⟨ha, hg, by rw [hk, hkeys], ?_, ?_⟩
      · intro sid hsid
        simp only [List.mem_cons, not_or] at hsid
        rw [hfr sid hsid.2, hst']
        exact lookupA_setA_ne _ hsid.1
      · intro sid hsid
        rcases List.mem_cons.mp hsid with rfl | hsid
        · rw [hfr sid hnd.1, hst']
          show lookupA (setA st.sources sid (urlRefreshOne cfg env now r).1) sid = _
          rw [lookupA_setA_self, hl]
        · have hne : sid ≠ sid0 := by
            intro hc
            exact hnd.1 (hc ▸ hsid)
          rw [hch sid hsid, hst']
          show (match lookupA (setA st.sources sid0 (urlRefreshOne cfg env now r).1) sid with
            | none => none
            | some r => some (urlRefreshOne cfg env now r).1) = _
          rw [lookupA_setA_ne _ hne]

theorem eligibles_nodup (now : Nat) {l : List (String × CacheRecord)}
    (hnd : (l.map Prod.fst).Nodup) :
    (l.filterMap (fun p =>
      if p.2.source_type = "url" ∧ p.2.url.isSome ∧ isEligible p.2 now
      then some p.1 else none)).Nodup := by
  have hsub : List.Sublist (l.filterMap (fun p =>
      if p.2.source_type = "url" ∧ p.2.url.isSome ∧ isEligible p.2 now
      then some p.1 else none)) (l.map Prod.fst) := by
    clear hnd
    induction l with
    | nil => simp
    | cons p t ih =>
      by_cases hc : p.2.source_type = "url" ∧ p.2.url.isSome ∧ isEligible p.2 now
      · simpa [hc] using List.Sublist.cons₂ p.1 ih
      · simpa [hc] using List.Sublist.cons p.1 ih
  exact hnd.sublist hsub

theorem urlRefresh_char (cfg : Config) (env : Env) (now : Nat) (st : CacheState)
    (hnd : (st.sources.map Prod.fst).Nodup) :
    (urlRefresh cfg env now st).1.schema_version = st.schema_version ∧
    (urlRefresh cfg env now st).1.generated_at = st.generated_at ∧
    (urlRefresh cfg env now st).1.sources.map Prod.fst = st.sources.map Prod.fst ∧
    (∀ sid r', lookupA (urlRefresh cfg env now st).1.sources sid = some r' →
      ∃ r, lookupA st.sources sid = some r ∧ r'.source_type = r.source_type ∧
        r'.file = r.file ∧ (r.source_type = "file" → r' = r)) := by
  unfold urlRefresh
  have hch := urlRefreshFold_char cfg env now
    (st.sources.filterMap (fun p =>
      if p.2.source_type = "url" ∧ p.2.url.isSome ∧ isEligible p.2 now then some p.1 else none))
    st false (eligibles_nodup now hnd)
  obtain ⟨ha, hg, hk, hfr, hel⟩ := hch
  refine ⟨ha, hg, hk, ?_⟩
  intro sid r' hr'
  by_cases hmem : sid ∈ st.sources.filterMap (fun p =>
      if p.2.source_type = "url" ∧ p.2.url.isSome ∧ isEligible p.2 now then some p.1 else none)
  · have := hel sid hmem
    rw [hr'] at this
    obtain ⟨p, hp, hif⟩ := List.mem_filterMap.mp hmem
    by_cases hc : p.2.source_type = "url" ∧ p.2.url.isSome ∧ isEligible p.2 now
    · rw [if_pos hc] at hif
      cases hif
      have hlp : lookupA st.sources p.1 = some p.2 := mem_lookupA_nodup hnd hp
      rw [hlp] at this
      simp only [Option.some.injEq] at this
      refine ⟨p.2, hlp, ?_⟩
      obtain ⟨hty, hfi⟩ := urlRefreshOne_frame cfg env now p.2
      rw [← this] at hty hfi
      refine ⟨hty, hfi, ?_⟩
      intro hfile
      rw [hc.1] at hfile
      simp at hfile
    · rw [if_neg hc] at hif
      cases hif
  · rw [hfr sid hmem] at hr'
    exact ⟨r', hr', rfl, rfl, fun _ => rfl⟩

theorem summarizeFold_char (cfg : Config) (env : Env) (now : Nat) :
    ∀ (l : List (String × String × CacheRecord)) (st : CacheState) (ws : List PersistEvent),
      (l.map Prod.fst).Nodup →
      (∀ t ∈ l, lookupA st.sources t.1 = some t.2.2 ∧ t.2.2.summary_pending = true) →
      (let res := l.foldl (fun acc t =>
        let step := summarizeOne cfg env now t.2.1 t.1 t.2.2 acc.1
        (step.1, acc.2 ++ step.2)) (st, ws)
       res.1.schema_version = st.schema_version ∧
       res.1.sources.map Prod.fst = st.sources.map Prod.fst ∧
       (∀ sid, sid ∉ l.map Prod.fst → lookupA res.1.sources sid = lookupA st.sources sid) ∧
       (∀ t ∈ l, attemptFails env t.2.1 t.1 ∨
         ∃ r', lookupA res.1.sources t.1 = some r' ∧ r'.summary_pending = false) ∧
       (∀ sid r', lookupA res.1.sources sid = some r' →
         ∃ r, lookupA st.sources sid = some r ∧ r'.source_type = r.source_type ∧
           r'.file = r.file ∧ (r'.summary_pending = true → r' = r))) := by
  intro l
  induction l with
  | nil =>
    intro st ws _ _
    exact ⟨rfl, rfl, fun _ _ => rfl, fun t ht => absurd ht (List.not_mem_nil t),
      fun sid r' h => ⟨r', h, rfl, rfl, fun _ => rfl⟩⟩
  | cons t rest ih =>
    intro st ws hnd hcur
    simp only [List.map_cons, List.nodup_cons] at hnd
    have hcur_t := hcur t (by simp)
    have hcur_rest : ∀ q ∈ rest, lookupA st.sources q.1 = some q.2.2 ∧
        q.2.2.summary_pending = true := fun q hq => hcur q (by simp [hq])
    rw [List.foldl_cons]
    by_cases hfail : attemptFails env t.2.1 t.1
    · rw [summarizeOne_noop cfg env now t.2.1 t.1 t.2.2 st hfail]
      simp only [List.append_nil]
      obtain ⟨ha, hk, hfr, hdone, hev⟩ := ih st ws hnd.2 hcur_rest
      refine ⟨ha, hk, ?_, ?_, hev⟩
      · intro sid hsid
        exact hfr sid (by
          simp only [List.map_cons, List.mem_cons, not_or] at hsid
          exact hsid.2)
      · intro q hq
        rcases List.mem_cons.mp hq with rfl | hq
        · exact Or.inl hfail
        · exact hdone q hq
    · have hstep : summarizeOne cfg env now t.2.1 t.1 t.2.2 st =
          (let updated := { t.2.2 with
              summary_text := pyStrip ((env.enrich (
                match loadTextOf env t.2.1 t.1 with
                | some tx => tx
                | none => "")).getD "")
              last_indexed_at := formatRfc3339 now
              summary_pending := false }
           let persisted := { st with
              sources := setA st.sources t.1 updated
              generated_at := formatRfc3339 now }
           (persisted, [⟨persisted, renderIndex persisted cfg.source_type_order cfg.index_pfx⟩])) := by
        unfold attemptFails at hfail
        cases hl : loadTextOf env t.2.1 t.1 with
        | none => rw [hl] at hfail; exact absurd trivial hfail
        | some text =>
          rw [hl] at hfail
          rw [not_or] at hfail
          obtain ⟨hne, henr⟩ := hfail
          cases he : env.enrich text with
          | none => exact absurd he henr
          | some raw =>
            unfold summarizeOne
            simp only [hl, he, hcur_t.1]
            rw [if_neg hne, if_pos ⟨trivial, hcur_t.2⟩]
            unfold persist
            simp [hl, he]
      rw [hstep]
      simp only []
      set updated : CacheRecord := { t.2.2 with
          summary_text := pyStrip ((env.enrich (
            match loadTextOf env t.2.1 t.1 with
            | some tx => tx
            | none => "")).getD "")
          last_indexed_at := formatRfc3339 now
          summary_pending := false } with hupd
      set st' : CacheState := { st with
          sources := setA st.sources t.1 updated
          generated_at := formatRfc3339 now } with hst'
      have hkeys : st'.sources.map Prod.fst = st.sources.map Prod.fst := by
        rw [hst']
        exact keys_setA_of_mem _ (by simp [hcur_t.1])
      have hcur_rest' : ∀ q ∈ rest, lookupA st'.sources q.1 = some q.2.2 ∧
          q.2.2.summary_pending = true := by
        intro q hq
        have hne : q.1 ≠ t.1 := by
          intro hc
          exact hnd.1 (hc ▸ List.mem_map_of_mem Prod.fst hq)
        rw [hst']
        refine ⟨?_, (hcur_rest q hq).2⟩
        show lookupA (setA st.sources t.1 updated) q.1 = some q.2.2
        rw [lookupA_setA_ne _ hne]
        exact (hcur_rest q hq).1
      obtain ⟨ha, hk, hfr, hdone, hev⟩ := ih st'
        (ws ++ [⟨st', renderIndex st' cfg.source_type_order cfg.index_pfx⟩]) hnd.2 hcur_rest'
      refine ⟨ha, by rw [hk, hkeys], ?_, ?_, ?_⟩
      · intro sid hsid
        simp only [List.map_cons, List.mem_cons, not_or] at hsid
        rw [hfr sid hsid.2, hst']
        exact lookupA_setA_ne _ hsid.1
      · intro q hq
        rcases List.mem_cons.mp hq with rfl | hq
        · refine Or.inr ⟨updated, ?_, rfl⟩
          rw [hfr q.1 hnd.1, hst']
          exact lookupA_setA_self _ _ _
        · exact hdone q hq
      · intro sid r' hr'
        obtain ⟨r₁, hr₁, hty₁, hfi₁, hpd₁⟩ := hev sid r' hr'
        by_cases hne : sid = t.1
        · subst hne
          rw [hst'] at hr₁
          have hself : lookupA (setA st.sources t.1 updated) t.1 = some updated :=
            lookupA_setA_self _ _ _
          rw [hself] at hr₁
          cases hr₁
          refine ⟨t.2.2, hcur_t.1, hty₁, hfi₁, ?_⟩
          intro hp
          have := hpd₁ hp
          subst this
          simp [hupd] at hp
        · rw [hst'] at hr₁
          have : lookupA (setA st.sources t.1 updated) sid = lookupA st.sources sid :=
            lookupA_setA_ne _ hne
          rw [this] at hr₁
          exact ⟨r₁, hr₁, hty₁, hfi₁, hpd₁⟩

theorem isSome_setA {α : Type} {l : List (String × α)} {k sid : String} {v : α}
    (h : (lookupA (setA l k v) sid).isSome) : sid = k ∨ (lookupA l sid).isSome := by
  by_cases hk : sid = k
  · exact Or.inl hk
  · rw [lookupA_setA_ne _ hk] at h
    exact Or.inr h

theorem combineDiscovered_ok_nodup :
    ∀ (l acc : List (String × String)) (res : List (String × String)),
      combineDiscovered acc l = .ok res → (acc.map Prod.fst).Nodup →
      (res.map Prod.fst).Nodup := by
  intro l
  induction l with
  | nil =>
    intro acc res h hacc
    unfold combineDiscovered at h
    cases h
    exact hacc
  | cons p t ih =>
    intro acc res h hacc
    obtain ⟨k, ty⟩ := p
    unfold combineDiscovered at h
    by_cases hk : (lookupA acc k).isSome
    · rw [if_pos hk] at h
      cases h
    · rw [if_neg hk] at h
      refine ih (acc ++ [(k, ty)]) res h ?_
      have hkn : k ∉ acc.map Prod.fst := by
        intro hc
        exact hk (lookupA_mem_keys.mpr hc)
      rw [List.map_append, List.nodup_append]
      refine ⟨hacc, List.nodup_singleton k, ?_⟩
      intro a ha hb
      simp only [List.map_cons, List.map_nil, List.mem_singleton] at hb
      subst hb
      exact hkn ha

theorem reconcileFold_post (cfg : Config) (env : Env) (now : Nat) :
    ∀ (l : List (String × String)) (srcs : List (String × CacheRecord)) (b : Bool),
      (l.map Prod.fst).Nodup →
      (let res := l.foldl (fun acc p =>
        match lookupA acc.1 p.1 with
        | some record =>
          if record.source_type = p.2 then acc
          else
            match initOf cfg env p.2 p.1 now with
            | none => acc
            | some initialized => (setA acc.1 p.1 initialized, true)
        | none =>
          match initOf cfg env p.2 p.1 now with
          | none => acc
          | some initialized => (acc.1 ++ [(p.1, initialized)], true)) (srcs, b)
       ((srcs.map Prod.fst).Nodup → (res.1.map Prod.fst).Nodup) ∧
       (∀ sid, sid ∉ l.map Prod.fst → lookupA res.1 sid = lookupA srcs sid) ∧
       (∀ pd ∈ l, lookupA res.1 pd.1 =
         (match lookupA srcs pd.1 with
          | some r => if r.source_type = pd.2 then some r
              else (match initOf cfg env pd.2 pd.1 now with
                    | some i => some i
                    | none => some r)
          | none => initOf cfg env pd.2 pd.1 now)) ∧
       (∀ sid, (lookupA res.1 sid).isSome → (lookupA srcs sid).isSome ∨ sid ∈ l.map Prod.fst)) := by
  intro l
  induction l with
  | nil =>
    intro srcs b _
    exact ⟨fun h => h, fun _ _ => rfl, fun pd hpd => absurd hpd (List.not_mem_nil pd),
      fun sid h => Or.inl h⟩
  | cons pd rest ih =>
    intro srcs b hnd
    simp only [List.map_cons, List.nodup_cons] at hnd
    rw [List.foldl_cons]
    cases hl : lookupA srcs pd.1 with
    | some r =>
      by_cases hty : r.source_type = pd.2
      · simp only [hl, if_pos hty]
        obtain ⟨hndp, hfr, hch, hdom⟩ := ih srcs b hnd.2
        refine ⟨hndp, fun sid hsid => hfr sid (by
            simp only [List.map_cons, List.mem_cons, not_or] at hsid
            exact hsid.2), ?_, ?_⟩
        · intro q hq
          rcases List.mem_cons.mp hq with rfl | hq
          · rw [hfr q.1 hnd.1, hl]
            simp [hty]
          · exact hch q hq
        · intro sid hs
          rcases hdom sid hs with h | h
          · exact Or.inl h
          · exact Or.inr (by simp [h])
      · cases hinit : initOf cfg env pd.2 pd.1 now with
        | none =>
          simp only [hl, if_neg hty, hinit]
          obtain ⟨hndp, hfr, hch, hdom⟩ := ih srcs b hnd.2
          refine ⟨hndp, fun sid hsid => hfr sid (by
              simp only [List.map_cons, List.mem_cons, not_or] at hsid
              exact hsid.2), ?_, ?_⟩
          · intro q hq
            rcases List.mem_cons.mp hq with rfl | hq
            · rw [hfr q.1 hnd.1, hl]
              simp [hty, hinit]
            · exact hch q hq
          · intro sid hs
            rcases hdom sid hs with h | h
            · exact Or.inl h
            · exact Or.inr (by simp [h])
        | some i =>
          simp only [hl, if_neg hty, hinit]
          obtain ⟨hndp, hfr, hch, hdom⟩ := ih (setA srcs pd.1 i) true hnd.2
          refine ⟨?_, ?_, ?_, ?_⟩
          · intro hsn
            exact hndp (nodup_setA i hsn)
          · intro sid hsid
            simp only [List.map_cons, List.mem_cons, not_or] at hsid
            rw [hfr sid hsid.2]
            exact lookupA_setA_ne _ hsid.1
          · intro q hq
            rcases List.mem_cons.mp hq with rfl | hq
            · rw [hfr q.1 hnd.1, lookupA_setA_self, hl]
              simp [hty, hinit]
            · have hne : q.1 ≠ pd.1 := by
                intro hc
                exact hnd.1 (hc ▸ List.mem_map_of_mem Prod.fst hq)
              rw [hch q hq, lookupA_setA_ne _ hne]
          · intro sid hs
            rcases hdom sid hs with h | h
            · rcases isSome_setA h with rfl | h2
              · exact Or.inr (by simp)
              · exact Or.inl h2
            · exact Or.inr (by simp [h])
    | none =>
      cases hinit : initOf cfg env pd.2 pd.1 now with
      | none =>
        simp only [hl, hinit]
        obtain ⟨hndp, hfr, hch, hdom⟩ := ih srcs b hnd.2
        refine ⟨hndp, fun sid hsid => hfr sid (by
            simp only [List.map_cons, List.mem_cons, not_or] at hsid
            exact hsid.2), ?_, ?_⟩
        · intro q hq
          rcases List.mem_cons.mp hq with rfl | hq
          · rw [hfr q.1 hnd.1, hl]
            simp [hinit]
          · exact hch q hq
        · intro sid hs
          rcases hdom sid hs with h | h
          · exact Or.inl h
          · exact Or.inr (by simp [h])
      | some i =>
        simp only [hl, hinit]
        obtain ⟨hndp, hfr, hch, hdom⟩ := ih (srcs ++ [(pd.1, i)]) true hnd.2
        have happ_frame : ∀ sid, sid ≠ pd.1 →
            lookupA (srcs ++ [(pd.1, i)]) sid = lookupA srcs sid := by
          intro sid hne
          cases hsr : lookupA srcs sid with
          | some v => exact lookupA_append_some hsr pd.1 i
          | none => rw [lookupA_append_none hsr pd.1 i, if_neg (fun hc => hne hc.symm)]
        refine ⟨?_, ?_, ?_, ?_⟩
        · intro hsn
          refine hndp ?_
          rw [List.map_append, List.nodup_append]
          refine ⟨hsn, by simp, ?_⟩
          intro a ha hb
          simp only [List.map_cons, List.map_nil, List.mem_singleton] at hb
          subst hb
          exact (lookupA_eq_none.mp hl) ha
        · intro sid hsid
          simp only [List.map_cons, List.mem_cons, not_or] at hsid
          rw [hfr sid hsid.2, happ_frame sid hsid.1]
        · intro q hq
          rcases List.mem_cons.mp hq with rfl | hq
          · rw [hfr q.1 hnd.1, lookupA_append_none hl q.1 i, if_pos rfl, hl]
            simp [hinit]
          · have hne : q.1 ≠ pd.1 := by
              intro hc
              exact hnd.1 (hc ▸ List.mem_map_of_mem Prod.fst hq)
            rw [hch q hq, happ_frame q.1 hne]
        · intro sid hs
          rcases hdom sid hs with h | h
          · by_cases hpd : sid = pd.1
            · exact Or.inr (by simp [hpd])
            · rw [happ_frame sid hpd] at h
              exact Or.inl h
          · exact Or.inr (by simp [h])

theorem reconcile_post (cfg : Config) (env : Env) (now : Nat)
    (d : List (String × String)) (st : CacheState)
    (hdnd : (d.map Prod.fst).Nodup) (hnd : (st.sources.map Prod.fst).Nodup) :
    (reconcile cfg env now d st).1.schema_version = st.schema_version ∧
    ((reconcile cfg env now d st).1.sources.map Prod.fst).Nodup ∧
    (∀ sid, (lookupA (reconcile cfg env now d st).1.sources sid).isSome →
      (lookupA d sid).isSome) ∧
    (∀ pd ∈ d,
      (match lookupA (reconcile cfg env now d st).1.sources pd.1 with
       | some r => r.source_type = pd.2 ∨ initOf cfg env pd.2 pd.1 now = none
       | none => initOf cfg env pd.2 pd.1 now = none)) := by
  have hkept_nd : ((st.sources.filter (fun p => (lookupA d p.1).isSome)).map Prod.fst).Nodup :=
    hnd.sublist ((st.sources.filter_sublist (p := fun p => (lookupA d p.1).isSome)).map Prod.fst)
  obtain ⟨hndp, hfr, hch, hdom⟩ := reconcileFold_post cfg env now d
    (st.sources.filter (fun p => (lookupA d p.1).isSome)) false hdnd
  unfold reconcile
  refine ⟨rfl, hndp hkept_nd, ?_, ?_⟩
  · intro sid hs
    rcases hdom sid hs with h | h
    · obtain ⟨v, hv⟩ := Option.isSome_iff_exists.mp h
      have hmem := lookupA_some_mem hv
      have := List.of_mem_filter hmem
      simpa using this
    · exact lookupA_mem_keys.mpr h
  · intro pd hpd
    have := hch pd hpd
    rw [this]
    cases hk : lookupA (st.sources.filter (fun p => (lookupA d p.1).isSome)) pd.1 with
    | none =>
      cases hi : initOf cfg env pd.2 pd.1 now with
      | none => simp [hi]
      | some i => simp [initOf_source_type hi]
    | some r =>
      by_cases hty : r.source_type = pd.2
      · simp [hty]
      · cases hi : initOf cfg env pd.2 pd.1 now with
        | none => simp [hty, hi]
        | some i => simp [hty, hi, initOf_source_type hi]

theorem fileRefresh_evol (env : Env) (st : CacheState) (hwf : Env.wf env) :
    (fileRefresh env st).1.schema_version = st.schema_version ∧
    (fileRefresh env st).1.generated_at = st.generated_at ∧
    (fileRefresh env st).1.sources.map Prod.fst = st.sources.map Prod.fst ∧
    (∀ sid r', lookupA (fileRefresh env st).1.sources sid = some r' →
      ∃ r, lookupA st.sources sid = some r ∧ r'.source_type = r.source_type) ∧
    (∀ p ∈ env.files, ∀ r', lookupA (fileRefresh env st).1.sources p.1 = some r' →
      r'.source_type = "file" → fileStepNoop p.2 p.1 r') := by
  obtain ⟨ha, hg, hk, hfr, hch⟩ := fileRefreshFold_char env env.files st false hwf
  have hres : ∀ p ∈ env.files, lookupA (fileRefresh env st).1.sources p.1 =
      (match lookupA st.sources p.1 with
       | none => none
       | some r =>
         if r.source_type = "file" then some (fileRefreshOne p.2 p.1 r).1 else some r) := by
    unfold fileRefresh
    exact hch
  have hresfr : ∀ sid, sid ∉ env.files.map Prod.fst →
      lookupA (fileRefresh env st).1.sources sid = lookupA st.sources sid := by
    unfold fileRefresh
    exact hfr
  refine ⟨ha, hg, hk, ?_, ?_⟩
  · intro sid r' hr'
    by_cases hmem : sid ∈ env.files.map Prod.fst
    · obtain ⟨p, hp, hp1⟩ := List.mem_map.mp hmem
      subst hp1
      rw [hres p hp] at hr'
      cases hl : lookupA st.sources p.1 with
      | none => rw [hl] at hr'; simp at hr'
      | some r =>
        simp only [hl] at hr'
        by_cases hty : r.source_type = "file"
        · rw [if_pos hty] at hr'
          cases hr'
          exact ⟨r, rfl, fileRefreshOne_source_type p.2 p.1 r⟩
        · rw [if_neg hty] at hr'
          refine ⟨r, rfl, ?_⟩
          cases hr'
          rfl
    · rw [hresfr sid hmem] at hr'
      exact ⟨r', hr', rfl⟩
  · intro p hp r' hr' hty'
    rw [hres p hp] at hr'
    cases hl : lookupA st.sources p.1 with
    | none => rw [hl] at hr'; simp at hr'
    | some r =>
      simp only [hl] at hr'
      by_cases hty : r.source_type = "file"
      · rw [if_pos hty] at hr'
        cases hr'
        exact fileRefreshOne_idem p.2 p.1 r
      · rw [if_neg hty] at hr'
        cases hr'
        exact absurd hty' hty

theorem summarizePending_post (cfg : Config) (env : Env) (now : Nat)
    (d : List (String × String)) (st : CacheState)
    (hnd : (st.sources.map Prod.fst).Nodup) :
    (summarizePending cfg env now d st).1.schema_version = st.schema_version ∧
    (summarizePending cfg env now d st).1.sources.map Prod.fst = st.sources.map Prod.fst ∧
    (∀ sid r', lookupA (summarizePending cfg env now d st).1.sources sid = some r' →
      ∃ r, lookupA st.sources sid = some r ∧ r'.source_type = r.source_type ∧
        r'.file = r.file) ∧
    (∀ sid r', lookupA (summarizePending cfg env now d st).1.sources sid = some r' →
      r'.summary_pending = true → ∀ ty, lookupA d sid = some ty → attemptFails env ty sid) := by
  have hpnd : ((st.sources.filterMap (fun p =>
      if p.2.summary_pending = true then
        (lookupA d p.1).map (fun ty => (p.1, ty, p.2))
      else none)).map Prod.fst).Nodup :=
    hnd.sublist (pendKeys_sublist d st.sources)
  have hcur : ∀ t ∈ st.sources.filterMap (fun p =>
      if p.2.summary_pending = true then
        (lookupA d p.1).map (fun ty => (p.1, ty, p.2))
      else none), lookupA st.sources t.1 = some t.2.2 ∧ t.2.2.summary_pending = true := by
    intro t ht
    obtain ⟨p, hp, hif⟩ := List.mem_filterMap.mp ht
    by_cases hpd : p.2.summary_pending = true
    · rw [if_pos hpd] at hif
      cases hd : lookupA d p.1 with
      | none => rw [hd] at hif; simp at hif
      | some ty =>
        rw [hd] at hif
        simp only [Option.map_some'] at hif
        cases hif
        exact ⟨mem_lookupA_nodup hnd hp, hpd⟩
    · rw [if_neg hpd] at hif
      simp at hif
  obtain ⟨ha, hk, hfr, hdone, hev⟩ := summarizeFold_char cfg env now
    (st.sources.filterMap (fun p =>
      if p.2.summary_pending = true then
        (lookupA d p.1).map (fun ty => (p.1, ty, p.2))
      else none)) st [] hpnd hcur
  have hres : summarizePending cfg env now d st =
      (st.sources.filterMap (fun p =>
        if p.2.summary_pending = true then
          (lookupA d p.1).map (fun ty => (p.1, ty, p.2))
        else none)).foldl (fun acc t =>
          let step := summarizeOne cfg env now t.2.1 t.1 t.2.2 acc.1
          (step.1, acc.2 ++ step.2)) (st, []) := rfl
  rw [hres]
  refine ⟨ha, hk, fun sid r' h => (hev sid r' h).imp
    (fun r hr => ⟨hr.1, hr.2.1, hr.2.2.1⟩), ?_⟩
  intro sid r' hr' hpend ty hty
  obtain ⟨r, hr, hrty, hrfi, hrpd⟩ := hev sid r' hr'
  have hre := hrpd hpend
  subst hre
  have hmem : (sid, ty, r') ∈ st.sources.filterMap (fun p =>
      if p.2.summary_pending = true then
        (lookupA d p.1).map (fun ty => (p.1, ty, p.2))
      else none) := by
    rw [List.mem_filterMap]
    exact ⟨(sid, r'), lookupA_some_mem hr, by rw [if_pos hpend, hty]; rfl⟩
  rcases hdone (sid, ty, r') hmem with hfail | ⟨r₂, hr₂, hpd₂⟩
  · exact hfail
  · rw [hr'] at hr₂
    cases hr₂
    rw [hpend] at hpd₂
    cases hpd₂

/-! ## Claim theorems -/

/-- C10: for every `CacheState` value — any combination of present or
absent file metadata, url metadata, optional `etag`/`last_modified` —
decoding the encoding round-trips exactly, including `schema_version`,
`generated_at` and every source record. -/
theorem decode_encode_roundtrip (st : CacheState) (now : Nat) :
    decodeCache (encodeCache st) now = some st := by
  obtain ⟨sv, ga, srcs⟩ := st
  simp [decodeCache, encodeCache, lookupA, decodeSources_map, jsonToInt, jsonToTs]

/-- C4: `read_cache_file` returns an empty state carrying the compiled-in
schema version when the file is missing, when the JSON cannot be parsed,
when decoding the parsed JSON raises, and when the stored schema version
differs from the compiled-in one; being a total function into
`CacheState`, it never raises to the caller. -/
theorem read_cache_file_recovers (f : CacheFile) (now : Nat)
    (h : match f with
      | .missing => True
      | .unreadableJson _ => True
      | .jsonContent j => decodeCache j now = none ∨
          ∃ c, decodeCache j now = some c ∧ c.schema_version ≠ SchemaVersion) :
    readCacheFile f now = emptyState now := by
  cases f with
  | missing => rfl
  | unreadableJson raw => rfl
  | jsonContent j =>
    rcases h with hnone | ⟨c, hc, hne⟩
    · simp [readCacheFile, hnone]
    · simp [readCacheFile, hc, hne]

/-- C4 witness: a cache file holding JSON that decodes but carries schema
version 2 is replaced by the empty current-version state. -/
theorem read_cache_file_recovers_witness :
    readCacheFile (.jsonContent (encodeCache ⟨2, .stamp 0, []⟩)) 7 = emptyState 7 :=
  read_cache_file_recovers (.jsonContent (encodeCache ⟨2, .stamp 0, []⟩)) 7
    (Or.inr ⟨⟨2, .stamp 0, []⟩, by decide, by decide⟩)

/-- C1 counterexample: a pending record with stored hash `"h0"` whose
current text `"fresh text"` hashes differently is successfully
enriched and re-validated; the claim says `content_hash` is updated,
but after `_summarize_one` applies the result (summary set, pending
cleared) the record still carries `"h0"`, not the hash of the content
that was summarized. -/
theorem summarize_content_hash_counterexample :
    (lookupA (summarizeOne ⟨"", ["file"], 3600, 60⟩
        { files := [("a.txt", ⟨some (5, 7), some "fresh text"⟩)], linksLines := none,
          cond := fun _ _ _ => .timeout, fetchText := fun _ => "",
          cachedText := fun _ => none, enrich := fun _ => some "S" } 10 "file" "a.txt"
        ⟨"file", "h0", "", .stamp 0, true, some ⟨"a.txt", 5, 7⟩, none⟩
        ⟨1, .stamp 0, [("a.txt", ⟨"file", "h0", "", .stamp 0, true, some ⟨"a.txt", 5, 7⟩, none⟩)]⟩).1.sources
      "a.txt").map (fun r => (r.summary_pending, r.summary_text, r.content_hash)) =
      some (false, "S", "h0") ∧ hashText "fresh text" ≠ "h0" := by
  decide

/-- C1 amended: when the Summarize phase processes a pending record, the
enrichment call succeeds, and the re-validation finds the record still
in the cache under its source id (same object) and still pending, the
indexer sets `summary_text` to the stripped enrichment result, sets
`last_indexed_at` to the current timestamp, clears `summary_pending`,
leaves `content_hash` unchanged (it was already set by init/refresh
when the content was captured), and immediately writes the cache file
and rebuilds the index file with exactly this one record's update — a
single persist event not batched with other records. -/
theorem summarize_success_applies_and_persists (cfg : Config) (env : Env) (now : Nat)
    (ty source_id : String) (record : CacheRecord) (cache : CacheState) (text raw : String)
    (hlook : lookupA cache.sources source_id = some record)
    (hpend : record.summary_pending = true)
    (htext : loadTextOf env ty source_id = some text)
    (hstrip : pyStrip text ≠ "")
    (henrich : env.enrich text = some raw) :
    summarizeOne cfg env now ty source_id record cache =
      (let updated := { record with
          summary_text := pyStrip raw
          last_indexed_at := formatRfc3339 now
          summary_pending := false }
       let persisted := { cache with
          sources := setA cache.sources source_id updated
          generated_at := formatRfc3339 now }
       (persisted, [⟨persisted, renderIndex persisted cfg.source_type_order cfg.index_pfx⟩])) := by
  have htne : text ≠ "" := by
    intro h
    exact hstrip (by rw [h]; rfl)
  unfold summarizeOne persist
  simp [htext, htne, hstrip, henrich, hlook, hpend]

/-- C1 witness: a concrete successful enrichment applied and persisted
in one write. -/
theorem summarize_success_applies_and_persists_witness :
    summarizeOne ⟨"kb:", ["file"], 3600, 60⟩
        { files := [("a.txt", ⟨some (5, 7), some "Hello"⟩)], linksLines := none,
          cond := fun _ _ _ => .timeout, fetchText := fun _ => "",
          cachedText := fun _ => none, enrich := fun _ => some " S " } 10 "file" "a.txt"
        ⟨"file", "h0", "", .stamp 0, true, some ⟨"a.txt", 5, 7⟩, none⟩
        ⟨1, .stamp 0, [("a.txt", ⟨"file", "h0", "", .stamp 0, true, some ⟨"a.txt", 5, 7⟩, none⟩)]⟩ =
      (let updated := { (⟨"file", "h0", "", .stamp 0, true, some ⟨"a.txt", 5, 7⟩, none⟩ : CacheRecord) with
          summary_text := pyStrip " S "
          last_indexed_at := formatRfc3339 10
          summary_pending := false }
       let persisted := { (⟨1, .stamp 0,
            [("a.txt", ⟨"file", "h0", "", .stamp 0, true, some ⟨"a.txt", 5, 7⟩, none⟩)]⟩ : CacheState) with
          sources := setA [("a.txt", ⟨"file", "h0", "", .stamp 0, true, some ⟨"a.txt", 5, 7⟩, none⟩)]
            "a.txt" updated
          generated_at := formatRfc3339 10 }
       (persisted, [⟨persisted, renderIndex persisted ["file"] "kb:"⟩])) :=
  summarize_success_applies_and_persists ⟨"kb:", ["file"], 3600, 60⟩
    { files := [("a.txt", ⟨some (5, 7), some "Hello"⟩)], linksLines := none,
      cond := fun _ _ _ => .timeout, fetchText := fun _ => "",
      cachedText := fun _ => none, enrich := fun _ => some " S " } 10 "file" "a.txt"
    ⟨"file", "h0", "", .stamp 0, true, some ⟨"a.txt", 5, 7⟩, none⟩
    ⟨1, .stamp 0, [("a.txt", ⟨"file", "h0", "", .stamp 0, true, some ⟨"a.txt", 5, 7⟩, none⟩)]⟩
    "Hello" " S " rfl rfl rfl (by decide) rfl

set_option maxHeartbeats 1600000 in
/-- C9 counterexample: for the record with `source_id = "a "` (trailing
space), non-empty summary `"s"` and empty identifier prefix, the code
renders the block `"a\ns"` — the identifier line is stripped — while the
claim's block format `"{prefix}{source_id}\n{summary}"` demands
`"a \ns"`. -/
theorem index_claim_counterexample :
    renderIndex ⟨1, .stamp 0, [("a ", ⟨"file", "h", "s", .stamp 0, false, none, none⟩)]⟩
        ["file"] "" ≠
      claimIndexRender ⟨1, .stamp 0, [("a ", ⟨"file", "h", "s", .stamp 0, false, none, none⟩)]⟩
        ["file"] "" := by
  decide

/-- C5: given a tracked file with an existing record carrying file
metadata, a successful stat and a readable file, the refresh loop body
leaves the record untouched and does not re-read the file exactly when
both `size_bytes` and `mtime_ns` match the stored metadata; on a delta
it re-reads, stores the fresh stat values, and sets `summary_pending`
if and only if the recomputed hash differs from the stored
`content_hash` or the record was already pending (so an mtime-only
touch with identical content re-reads but does not re-summarize). -/
theorem file_refresh_change_detection (info : FileInfo) (rel_path : String)
    (record : CacheRecord) (fm : FileMetadata) (sz mt : Int) (text : String)
    (hfm : record.file = some fm) (hstat : info.stat = some (sz, mt))
    (hread : info.content = some text) :
    (((fileRefreshOne info rel_path record).1 = record ∧
        (fileRefreshOne info rel_path record).2.2 = false) ↔
      (fm.size_bytes = sz ∧ fm.mtime_ns = mt)) ∧
    (¬ (fm.size_bytes = sz ∧ fm.mtime_ns = mt) →
      (fileRefreshOne info rel_path record).2.2 = true ∧
      (fileRefreshOne info rel_path record).1.file = some ⟨rel_path, sz, mt⟩ ∧
      ((fileRefreshOne info rel_path record).1.summary_pending = true ↔
        (hashText text ≠ record.content_hash ∨ record.summary_pending = true))) := by
  unfold fileRefreshOne
  rw [hstat, hfm, hread]
  by_cases hmeta : fm.size_bytes = sz ∧ fm.mtime_ns = mt
  · simp [Option.getD, hmeta]
  · constructor
    · simp [Option.getD, hmeta]
    · intro _
      by_cases hset : hashText text ≠ record.content_hash ∨ record.summary_pending = true
      · simp [Option.getD, hmeta, hset]
      · push_neg at hset
        simp [Option.getD, hmeta, hset.1, hset.2]

/-- C5 witness: an mtime-only touch (stored mtime 7, current 9) with
identical content re-reads the file but leaves `summary_pending`
false because the recomputed hash matches. -/
theorem file_refresh_change_detection_witness :
    ((fileRefreshOne ⟨some (5, 9), some "Hello"⟩ "a.txt"
        ⟨"file", hashText "Hello", "old", .stamp 0, false, some ⟨"a.txt", 5, 7⟩, none⟩).2.2 = true ∧
      (fileRefreshOne ⟨some (5, 9), some "Hello"⟩ "a.txt"
        ⟨"file", hashText "Hello", "old", .stamp 0, false, some ⟨"a.txt", 5, 7⟩, none⟩).1.file =
          some ⟨"a.txt", 5, 9⟩ ∧
      ((fileRefreshOne ⟨some (5, 9), some "Hello"⟩ "a.txt"
        ⟨"file", hashText "Hello", "old", .stamp 0, false, some ⟨"a.txt", 5, 7⟩, none⟩).1.summary_pending = true ↔
        (hashText "Hello" ≠ hashText "Hello" ∨ false = true))) :=
  (file_refresh_change_detection ⟨some (5, 9), some "Hello"⟩ "a.txt"
      ⟨"file", hashText "Hello", "old", .stamp 0, false, some ⟨"a.txt", 5, 7⟩, none⟩
      ⟨"a.txt", 5, 7⟩ 5 9 "Hello" rfl rfl rfl).2 (by decide)

/-- C6: an eligible URL record whose conditional request answers
`304 Not Modified` gets `fetch_status = "not_modified"`, a fresh
`last_fetched_at`, and `next_check_at = now + refresh interval`, and
every other field — in particular `summary_pending`, `summary_text`
and `content_hash` — is unchanged; since the Summarize phase enriches
exactly the records whose `summary_pending` is set, a 304 never causes
an enrichment call for the record. -/
theorem url_refresh_not_modified (cfg : Config) (env : Env) (now : Nat)
    (record : CacheRecord) (u : UrlMetadata) (e lm : Option String)
    (hu : record.url = some u)
    (hreply : env.cond u.url u.etag u.last_modified = .reply 304 e lm) :
    urlRefreshOne cfg env now record =
      ({ record with
          url := some { u with
            fetch_status := "not_modified"
            last_fetched_at := formatRfc3339 now
            next_check_at := formatRfc3339 (now + cfg.url_refresh_min_interval) } }, true) ∧
    (urlRefreshOne cfg env now record).1.summary_pending = record.summary_pending ∧
    (urlRefreshOne cfg env now record).1.summary_text = record.summary_text ∧
    (urlRefreshOne cfg env now record).1.content_hash = record.content_hash := by
  unfold urlRefreshOne
  rw [hu]
  simp [hreply]

/-- C6 witness at a concrete 304 reply. -/
theorem url_refresh_not_modified_witness :
    urlRefreshOne ⟨"", ["url"], 3600, 60⟩
        { files := [], linksLines := none, cond := fun _ _ _ => .reply 304 none none,
          fetchText := fun _ => "", cachedText := fun _ => none, enrich := fun _ => none } 100
        ⟨"url", "h", "old summary", .stamp 0, false, none,
          some ⟨"http://x", .stamp 0, some "v1", none, "success", .stamp 50⟩⟩ =
      (⟨"url", "h", "old summary", .stamp 0, false, none,
          some ⟨"http://x", .stamp 100, some "v1", none, "not_modified", .stamp 3700⟩⟩, true) :=
  ((url_refresh_not_modified ⟨"", ["url"], 3600, 60⟩
      { files := [], linksLines := none, cond := fun _ _ _ => .reply 304 none none,
        fetchText := fun _ => "", cachedText := fun _ => none, enrich := fun _ => none } 100
      ⟨"url", "h", "old summary", .stamp 0, false, none,
        some ⟨"http://x", .stamp 0, some "v1", none, "success", .stamp 50⟩⟩
      ⟨"http://x", .stamp 0, some "v1", none, "success", .stamp 50⟩ none none rfl rfl).1)

/-- C7: a refresh attempt ending in a timeout, a network error, an
unexpected exception, or an HTTP status other than 200 and 304 sets
`fetch_status` accordingly (`"timeout"` for the timeout, `"error"`
otherwise) and reschedules `next_check_at` to `now` plus the shorter
runtime-tick interval — strictly sooner than the normal refresh
interval — while `etag`, `last_modified`, `last_fetched_at`,
`content_hash`, `summary_text`, `summary_pending` and
`last_indexed_at` are all unchanged (the structure updates below touch
nothing else). -/
theorem url_refresh_failure_reschedules (cfg : Config) (env : Env) (now : Nat)
    (record : CacheRecord) (u : UrlMetadata) (fs : String)
    (hu : record.url = some u)
    (hint : cfg.runtime_refresh_tick < cfg.url_refresh_min_interval)
    (hfail : (env.cond u.url u.etag u.last_modified = .timeout ∧ fs = "timeout") ∨
      (env.cond u.url u.etag u.last_modified = .netError ∧ fs = "error") ∨
      (env.cond u.url u.etag u.last_modified = .unexpected ∧ fs = "error") ∨
      (∃ st e lm, env.cond u.url u.etag u.last_modified = .reply st e lm ∧
        st ≠ 304 ∧ st ≠ 200 ∧ fs = "error")) :
    urlRefreshOne cfg env now record =
      ({ record with
          url := some { u with
            fetch_status := fs
            next_check_at := formatRfc3339 (now + cfg.runtime_refresh_tick) } }, true) ∧
    now + cfg.runtime_refresh_tick < now + cfg.url_refresh_min_interval := by
  refine ⟨?_, by omega⟩
  unfold urlRefreshOne
  rw [hu]
  rcases hfail with ⟨hc, rfl⟩ | ⟨hc, rfl⟩ | ⟨hc, rfl⟩ | ⟨st, e, lm, hc, h304, h200, rfl⟩
  · simp [hc, markUrlFailure, hu]
  · simp [hc, markUrlFailure, hu]
  · simp [hc, markUrlFailure, hu]
  · simp [hc, markUrlFailure, hu, h304, h200]

/-- C7 witness at a concrete timeout. -/
theorem url_refresh_failure_reschedules_witness :
    urlRefreshOne ⟨"", ["url"], 3600, 60⟩
        { files := [], linksLines := none, cond := fun _ _ _ => .timeout,
          fetchText := fun _ => "", cachedText := fun _ => none, enrich := fun _ => none } 100
        ⟨"url", "h", "s", .stamp 0, false, none,
          some ⟨"http://x", .stamp 0, some "v1", some "lm", "success", .stamp 50⟩⟩ =
      (⟨"url", "h", "s", .stamp 0, false, none,
          some ⟨"http://x", .stamp 0, some "v1", some "lm", "timeout", .stamp 160⟩⟩, true) ∧
    (100 : Nat) + 60 < 100 + 3600 :=
  (url_refresh_failure_reschedules ⟨"", ["url"], 3600, 60⟩
      { files := [], linksLines := none, cond := fun _ _ _ => .timeout,
        fetchText := fun _ => "", cachedText := fun _ => none, enrich := fun _ => none } 100
      ⟨"url", "h", "s", .stamp 0, false, none,
        some ⟨"http://x", .stamp 0, some "v1", some "lm", "success", .stamp 50⟩⟩
      ⟨"http://x", .stamp 0, some "v1", some "lm", "success", .stamp 50⟩ "timeout" rfl
      (by decide) (Or.inl ⟨rfl, rfl⟩))

/-- C3: `UrlLinksProvider.load_text` returns exactly the body held by
the on-disk content cache for the source id (or absent), is total
(never raises), and performs no network operation: its result is
invariant under replacing the conditional-request and fetch behaviour
of the environment.  `WebFetcher.get_cached_content` itself is absent
from the shipped `web_fetcher.py` and is modelled from the spec as the
`cachedText` environment field. -/
theorem url_load_text_cached (env : Env) (source_id : String) :
    urlLoadText env source_id = env.cachedText source_id ∧
    (∀ c f, urlLoadText { env with cond := c, fetchText := f } source_id =
      urlLoadText env source_id) :=
  ⟨rfl, fun _ _ => rfl⟩

/-- C8: when the file provider and the URL provider both discover the
same `source_id`, the tick fails: `run_once` raises the duplicate-id
error during discovery, before reconciliation, refresh, summarization
or persistence, and the tick performs no write at all. -/
theorem duplicate_source_id_aborts_tick (cfg : Config) (env : Env) (now : Nat)
    (state : CacheState) (sid : String)
    (hfile : sid ∈ (fileDiscover env).map Prod.fst)
    (hurl : sid ∈ (urlDiscover env).map Prod.fst) :
    exceptIsError (runOnce cfg env now state).1 = true ∧ (runOnce cfg env now state).2 = [] := by
  have herr : exceptIsError (discoverSources env) = true :=
    combineDiscovered_error_append sid (Or.inr hfile) hurl
  unfold runOnce
  rcases hds : discoverSources env with e | d
  · simp [exceptIsError]
  · rw [hds] at herr
    simp [exceptIsError] at herr

/-- C8 witness: the id `"x"` is both a visible file and a link. -/
theorem duplicate_source_id_aborts_tick_witness :
    exceptIsError ((runOnce ⟨"", ["file", "url"], 3600, 60⟩
        { files := [("x", ⟨some (1, 1), some "t"⟩)], linksLines := some ["x"],
          cond := fun _ _ _ => .timeout, fetchText := fun _ => "",
          cachedText := fun _ => none, enrich := fun _ => none } 0 (emptyState 0)).1) = true ∧
    (runOnce ⟨"", ["file", "url"], 3600, 60⟩
        { files := [("x", ⟨some (1, 1), some "t"⟩)], linksLines := some ["x"],
          cond := fun _ _ _ => .timeout, fetchText := fun _ => "",
          cachedText := fun _ => none, enrich := fun _ => none } 0 (emptyState 0)).2 = [] :=
  duplicate_source_id_aborts_tick ⟨"", ["file", "url"], 3600, 60⟩
    { files := [("x", ⟨some (1, 1), some "t"⟩)], linksLines := some ["x"],
      cond := fun _ _ _ => .timeout, fetchText := fun _ => "",
      cachedText := fun _ => none, enrich := fun _ => none } 0 (emptyState 0) "x"
    (by decide) (by decide)

/-- C9 amended: the rendered index file consists exactly of one block per
record whose source type appears in the provider-declared order and whose
`summary_text` is non-empty after stripping; each block is
`strip(prefix + source_id)` on one line followed by the stripped summary
(degenerating to the stripped summary alone when `prefix + source_id` is
entirely whitespace); blocks are grouped by source type in the declared
order, sorted by `source_id` within each group, and joined with a single
blank-line separator. -/
theorem index_file_amended_format (cache : CacheState) (source_types : List String) (pfx : String) :
    renderIndex cache source_types pfx = amendedIndexRender cache source_types pfx := by
  unfold renderIndex writeIndexFile buildIndexEntries amendedIndexRender
  have hall : ∀ e ∈ (source_types.map (fun ty =>
      (sortByKey (indexGroup cache ty)).map (fun p =>
        pyStrip (pyStrip (pfx ++ p.1) ++ "\n" ++ p.2)))).flatten,
      pyStrip e ≠ "" := by
    intro e he
    rw [List.mem_flatten] at he
    obtain ⟨l, hl, hel⟩ := he
    rw [List.mem_map] at hl
    obtain ⟨ty, hty, rfl⟩ := hl
    rw [List.mem_map] at hel
    obtain ⟨p, hp, rfl⟩ := hel
    obtain ⟨y, hy, hne⟩ := group_mem_shape hp
    rw [hy, pyStrip_idem]
    exact pyStrip_entry_ne hne
  rw [List.filter_eq_self.mpr (fun e he => by simpa using hall e he)]
  apply congrArg (String.intercalate "\n\n")
  apply congrArg List.flatten
  apply List.map_congr_left
  intro ty _
  apply List.map_congr_left
  intro p hp
  obtain ⟨y, hy, hne⟩ := group_mem_shape hp
  rw [hy]
  exact pyStrip_block (pfx ++ p.1) hne

/-- **C2** — Idempotence.  For every reachable cache state: if a tick at
time `now1` from cache state `s0` (whose keys are unique, as they come
from a JSON object) succeeds and produces state `s1`, then a second tick
run against the same deterministic environment (identical discovery
results, identical file stats and contents, identical network and
enrichment behaviour) at any time `now2` at which no URL record of `s1`
has become due again performs no cache mutation and produces no
cache-file or index-file write at all (so the index file is
byte-for-byte unchanged). -/
theorem run_once_idempotent (cfg : Config) (env : Env) (now1 now2 : Nat) (s0 s1 : CacheState)
    (hwf : Env.wf env)
    (hnd0 : (s0.sources.map Prod.fst).Nodup)
    (h1 : (runOnce cfg env now1 s0).1 = Except.ok s1)
    (helig : ∀ p ∈ s1.sources, isEligible p.2 now2 = false) :
    runOnce cfg env now2 s1 = (Except.ok s1, []) := by
  cases hd : discoverSources env with
  | error e =>
    unfold runOnce at h1
    rw [hd] at h1
    simp at h1
  | ok d =>
    unfold runOnce at h1
    rw [hd] at h1
    simp only [Except.ok.injEq] at h1
    have hdnd : (d.map Prod.fst).Nodup := by
      have hd' : combineDiscovered [] (fileDiscover env ++ urlDiscover env) = Except.ok d := hd
      exact combineDiscovered_ok_nodup _ [] d hd' (by simp)
    have hA0 : (if s0.schema_version ≠ SchemaVersion then emptyState now1
        else s0).schema_version = SchemaVersion := by
      by_cases h : s0.schema_version ≠ SchemaVersion
      · rw [if_pos h]; rfl
      · rw [if_neg h]; exact not_not.mp h
    have hnd0' : ((if s0.schema_version ≠ SchemaVersion then emptyState now1
        else s0).sources.map Prod.fst).Nodup := by
      by_cases h : s0.schema_version ≠ SchemaVersion
      · rw [if_pos h]; simp [emptyState]
      · rw [if_neg h]; exact hnd0
    set c0 : CacheState := if s0.schema_version ≠ SchemaVersion then emptyState now1 else s0
      with hc0
    obtain ⟨hrecA, hrecND, hrecB, hrecD⟩ := reconcile_post cfg env now1 d c0 hdnd hnd0'
    set recP : CacheState × Bool := reconcile cfg env now1 d c0 with hrecPdef
    obtain ⟨hfA, hfG, hfK, hfEvol, hfE⟩ := fileRefresh_evol env recP.1 hwf
    set refP : CacheState × Bool := fileRefresh env recP.1 with hrefPdef
    have hndRef : (refP.1.sources.map Prod.fst).Nodup := by rw [hfK]; exact hrecND
    obtain ⟨huA, huG, huK, huEvol⟩ := urlRefresh_char cfg env now1 refP.1 hndRef
    set ruP : CacheState × Bool := urlRefresh cfg env now1 refP.1 with hruPdef
    have hperSrc : (if recP.2 || refP.2 || ruP.2 then persist cfg now1 ruP.1
        else (ruP.1, [])).1.sources = ruP.1.sources := by
      by_cases hch : (recP.2 || refP.2 || ruP.2) = true
      · rw [if_pos hch]
        rfl
      · rw [if_neg hch]
    have hperSch : (if recP.2 || refP.2 || ruP.2 then persist cfg now1 ruP.1
        else (ruP.1, [])).1.schema_version = ruP.1.schema_version := by
      by_cases hch : (recP.2 || refP.2 || ruP.2) = true
      · rw [if_pos hch]
        rfl
      · rw [if_neg hch]
    set perS : CacheState := (if recP.2 || refP.2 || ruP.2 then persist cfg now1 ruP.1
        else (ruP.1, [])).1 with hperSdef
    have hndPer : (perS.sources.map Prod.fst).Nodup := by
      rw [hperSrc, huK]
      exact hndRef
    obtain ⟨hsA, hsK, hsEvol, hsF⟩ := summarizePending_post cfg env now1 d perS hndPer
    set sumP := summarizePending cfg env now1 d perS with hsumPdef
    rw [h1] at hsA hsK hsEvol hsF
    have hkeys : s1.sources.map Prod.fst = recP.1.sources.map Prod.fst := by
      rw [hsK, hperSrc, huK, hfK]
    have hndS1 : (s1.sources.map Prod.fst).Nodup := by
      rw [hkeys]
      exact hrecND
    have hA : s1.schema_version = SchemaVersion := by
      rw [hsA, hperSch, huA, hfA, hrecA, hA0]
    have hB : ∀ p ∈ s1.sources, (lookupA d p.1).isSome := by
      intro p hp
      have hm : p.1 ∈ s1.sources.map Prod.fst := List.mem_map_of_mem Prod.fst hp
      rw [hkeys] at hm
      exact hrecB p.1 (lookupA_mem_keys.mpr hm)
    have hD : ∀ pd ∈ d,
        (match lookupA s1.sources pd.1 with
         | some r => r.source_type = pd.2 ∨ initOf cfg env pd.2 pd.1 now2 = none
         | none => initOf cfg env pd.2 pd.1 now2 = none) := by
      intro pd hpd
      have hrd := hrecD pd hpd
      cases hs : lookupA s1.sources pd.1 with
      | none =>
        have hm : pd.1 ∉ s1.sources.map Prod.fst := lookupA_eq_none.mp hs
        rw [hkeys] at hm
        have hrnone : lookupA recP.1.sources pd.1 = none := lookupA_eq_none.mpr hm
        simp only [hrnone] at hrd
        exact initOf_none_mono hrd
      | some r =>
        obtain ⟨rp, hrp, hty1, hfi1⟩ := hsEvol pd.1 r hs
        rw [hperSrc] at hrp
        obtain ⟨rf, hrf, hty2, hfi2, hst2⟩ := huEvol pd.1 rp hrp
        obtain ⟨rr, hrr, hty3⟩ := hfEvol pd.1 rf hrf
        simp only [hrr] at hrd
        rcases hrd with hl | hr
        · exact Or.inl (by rw [hty1, hty2, hty3, hl])
        · exact Or.inr (initOf_none_mono hr)
    have hE : ∀ p ∈ env.files, ∀ r, lookupA s1.sources p.1 = some r →
        r.source_type = "file" → fileStepNoop p.2 p.1 r := by
      intro p hp r hlr hty
      obtain ⟨rp, hrp, hty1, hfi1⟩ := hsEvol p.1 r hlr
      rw [hperSrc] at hrp
      obtain ⟨rf, hrf, hty2, hfi2, hst2⟩ := huEvol p.1 rp hrp
      have hrfty : rf.source_type = "file" := by
        rw [← hty2, ← hty1]
        exact hty
      have hnoop := hfE p hp rf hrf hrfty
      have hfile : r.file = rf.file := by rw [hfi1, hfi2]
      exact fileStepNoop_of_file_eq hfile hnoop
    have hF : ∀ p ∈ s1.sources, p.2.summary_pending = true →
        ∀ ty, lookupA d p.1 = some ty → attemptFails env ty p.1 := by
      intro p hp hpend ty hty
      exact hsF p.1 p.2 (mem_lookupA_nodup hndS1 hp) hpend ty hty
    have hrec2 : reconcile cfg env now2 d s1 = (s1, false) :=
      reconcile_noop cfg env now2 d s1 hB hD
    have hfile2 : fileRefresh env s1 = (s1, false) := fileRefresh_noop env s1 hE
    have hurl2 : urlRefresh cfg env now2 s1 = (s1, false) :=
      urlRefresh_noop cfg env now2 s1 helig
    have hsum2 : summarizePending cfg env now2 d s1 = (s1, []) :=
      summarizePending_noop cfg env now2 d s1 hF
    have hC : (if s1.schema_version ≠ SchemaVersion then emptyState now2 else s1) = s1 := by
      rw [hA]
      simp
    unfold runOnce
    rw [hC, hd]
    simp [hrec2, hfile2, hurl2, hsum2]

/-- Witness for `run_once_idempotent`: the empty cache in the trivial
environment is a fixpoint of `runOnce`, and the second tick writes
nothing. -/
theorem run_once_idempotent_witness :
    Env.wf wEnv ∧
    ((emptyState 0).sources.map Prod.fst).Nodup ∧
    (runOnce wCfg wEnv 0 (emptyState 0)).1 = Except.ok (emptyState 0) ∧
    runOnce wCfg wEnv 1 (emptyState 0) = (Except.ok (emptyState 0), []) :=
  ⟨List.nodup_nil, List.nodup_nil, rfl,
    run_once_idempotent wCfg wEnv 0 1 (emptyState 0) (emptyState 0)
      List.nodup_nil List.nodup_nil rfl
      (fun p hp => absurd hp (List.not_mem_nil p))⟩

end KnowledgeCache
